import Mathlib

/-!
Shallow embedding of the printing-plate cost-allocation core of the
sticker-shop repository (src/database.ts) and proofs of the frozen claims.

Numbers (JavaScript `number`) are modelled as `Rat`; requested sticker
quantities in a plate's `stickers_quantities` map are modelled as `Nat`
(the data model declares them integers ≥ 0).  JavaScript records with
string keys are modelled as association lists in insertion order, and a
JavaScript object reference into the catalog array is modelled by the
product's position (index) in the list.  JavaScript truthiness on an
optional number (`undefined`, `0` falsy) is `truthyQ`.
-/

unseal Rat.mul Rat.add Rat.inv Rat.sub

namespace StickerShop

/-- Product record (database.ts lines 1-13).  `category` is kept as an open
string; optional numeric fields are `Option Rat`. -/
structure Product where
  id : Int
  name : String
  category : String
  price : Rat
  stock : Rat
  cost : Rat
  size : Option String := none
  width_mm : Option Rat := none
  height_mm : Option Rat := none
  area_mm2 : Option Rat := none
  created_at : String := ""
deriving DecidableEq

/-- Purchase record (database.ts lines 38-45). -/
structure Purchase where
  id : Int
  product_id : Int
  quantity : Rat
  unit_cost : Rat
  total : Rat
  date : String := ""
deriving DecidableEq

/-- Printing plate record (database.ts lines 47-57). -/
structure PrintingPlate where
  id : Int
  name : String
  cost : Rat
  small_stickers_quantity : Nat := 0
  large_stickers_quantity : Nat := 0
  stickers_quantities : Option (List (String × Nat)) := none
  is_printed : Bool
  date_created : String := ""
  date_printed : Option String := none
deriving DecidableEq

/-- The tables of the backing store touched by the operations under
verification (`localStorage` keys `products`, `printing_plates`,
`purchases`). -/
structure DB where
  products : List Product
  printing_plates : List PrintingPlate
  purchases : List Purchase
deriving DecidableEq

/-- JavaScript truthiness of an optional number: `undefined` and `0` are
falsy, every other number is truthy. -/
def truthyQ (o : Option Rat) : Bool :=
  match o with
  | none => false
  | some a => a != 0

/-- `getNextId` (database.ts lines 68-71): `max(ids) + 1`, or `1` on an
empty table. -/
def nextIdInt (ids : List Int) : Int :=
  match ids with
  | [] => 1
  | x :: xs => xs.foldl max x + 1

/-- `p.size || 'unknown'` (database.ts line 279): missing or empty-string
size falls into the "unknown" bucket. -/
def productSizeKey (p : Product) : String :=
  match p.size with
  | none => "unknown"
  | some s => if s == "" then "unknown" else s

/-- List of (index, element) pairs starting at index `n`; models the array
positions that stand in for JavaScript object references. -/
def entriesFrom : Nat → List Product → List (Nat × Product)
  | _, [] => []
  | i, p :: ps => (i, p) :: entriesFrom (i + 1) ps

/-- The products bound to a size key, with their catalog positions:
`products.filter(p => p.category === 'stickers')` grouped by
`p.size || 'unknown'` (database.ts lines 277-282). -/
def bucketEntries (products : List Product) (key : String) : List (Nat × Product) :=
  (entriesFrom 0 products).filter
    (fun ip => ip.2.category == "stickers" && productSizeKey ip.2 == key)

/-- The products bound to a size key, in catalog order. -/
def stickersBySize (products : List Product) (key : String) : List Product :=
  (bucketEntries products key).map Prod.snd

/-- The catalog positions of the products bound to a size key. -/
def bucketIdxs (products : List Product) (key : String) : List Nat :=
  (bucketEntries products key).map Prod.fst

/-- Digit characters to the natural number they denote. -/
def digitsToNat (cs : List Char) : Nat :=
  cs.foldl (fun n c => n * 10 + (c.toNat - 48)) 0

/-- Nonempty all-digit character list. -/
def isDigits (cs : List Char) : Bool :=
  !cs.isEmpty && cs.all (·.isDigit)

/-- Split a character list at every separator the predicate accepts,
keeping empty segments (the behavior of splitting a string on a
separator character). -/
def splitCharsBy (p : Char → Bool) : List Char → List (List Char)
  | [] => [[]]
  | c :: cs =>
    let r := splitCharsBy p cs
    if p c then [] :: r
    else
      match r with
      | [] => [[c]]
      | h :: t => (c :: h) :: t

/-- ASCII lower-casing of a string (models `toLowerCase()` on the ASCII
size keys the shop uses). -/
def strToLower (s : String) : String :=
  String.mk (s.toList.map Char.toLower)

/-- `parseFloat` restricted to the regex fragment `\d+(\.\d+)?`, idealized
to exact rational arithmetic. -/
def parseNumChars (cs : List Char) : Option Rat :=
  match splitCharsBy (fun c => c == '.') cs with
  | [a] => if isDigits a then some (digitsToNat a : Rat) else none
  | [a, b] =>
    if isDigits a && isDigits b then
      some ((digitsToNat a : Rat) + (digitsToNat b : Rat) / ((10 : Rat) ^ b.length))
    else none
  | _ => none

/-- The regex `^(\d+(?:\.\d+)?)x(\d+(?:\.\d+)?)$/i` (database.ts lines 299,
325, 439): since a number fragment never contains an `x`, the string
matches exactly when splitting on `x`/`X` yields two number fragments. -/
def parseDims (s : String) : Option (Rat × Rat) :=
  match splitCharsBy (fun c => c == 'x' || c == 'X') s.toList with
  | [a, b] =>
    match parseNumChars a, parseNumChars b with
    | some w, some h => some (w, h)
    | _, _ => none
  | _ => none

/-- The find predicate `it.area_mm2 || (it.width_mm && it.height_mm)`
(database.ts line 291): JS truthiness on each field. -/
def hasTruthyArea (p : Product) : Bool :=
  truthyQ p.area_mm2 || (truthyQ p.width_mm && truthyQ p.height_mm)

/-- `it.area_mm2 ?? (it.width_mm && it.height_mm ? it.width_mm * it.height_mm
: undefined)` (database.ts lines 292, 361): nullish coalescing, so a present
`area_mm2` of `0` is kept. -/
def explicitAreaOf (p : Product) : Option Rat :=
  match p.area_mm2 with
  | some a => some a
  | none =>
    if truthyQ p.width_mm && truthyQ p.height_mm then
      some (p.width_mm.getD 0 * p.height_mm.getD 0)
    else none

/-- The area taken from the first bound product that satisfies the truthy
find predicate (database.ts lines 290-293). -/
def itemsCandidateArea (items : List Product) : Option Rat :=
  (items.find? hasTruthyArea).bind explicitAreaOf

/-- The default / parsed fallback areas (database.ts lines 295-306):
`chico` ↦ 50·50, `grande` ↦ 100·100 (case-insensitive), else the parsed
`WxH` product. -/
def sizeDefaults (sizeKey : String) : Option Rat :=
  if strToLower sizeKey == "chico" then some (50 * 50)
  else if strToLower sizeKey == "grande" then some (100 * 100)
  else (parseDims sizeKey).map (fun wh => wh.1 * wh.2)

/-- Per-size unit-area resolution (database.ts lines 288-307, identically
lines 428-446): candidate from bound products first; if that is falsy
(absent or zero) the defaults/parse may overwrite it, and when they do not
match the (possibly zero) candidate is what remains. -/
def resolveUnitArea (sizeKey : String) (items : List Product) : Option Rat :=
  let a0 := itemsCandidateArea items
  if truthyQ a0 then a0
  else
    match sizeDefaults sizeKey with
    | some d => some d
    | none => a0

/-- `plate.stickers_quantities || { chico: ..., grande: ... }` (database.ts
lines 272-275, 411-414); any present map (even empty) is truthy. -/
def countsBySize (plate : PrintingPlate) : List (String × Nat) :=
  match plate.stickers_quantities with
  | some m => m
  | none =>
    [("chico", plate.small_stickers_quantity), ("grande", plate.large_stickers_quantity)]

/-- The per-item remainder loop of the quantity split (database.ts lines
360-366): each of `k` items gets `base`, plus one while the remainder
lasts. -/
def assignLoop (base : Nat) : Nat → Nat → List Nat
  | _, 0 => []
  | rem, k + 1 => (base + if 0 < rem then 1 else 0) :: assignLoop base (rem - 1) k

/-- The quantities assigned to the `n` products bound to a size key with
requested quantity `q` (database.ts lines 357-366):
`base = floor(q / n)`, remainder `q - base*n` handed out one-by-one. -/
def assignQtys (q n : Nat) : List Nat :=
  if n = 0 then [] else assignLoop (q / n) (q - q / n * n) n

/-- Per-item area for cost assignment (database.ts lines 361-363): the
item's own explicit area if truthy, else the size key's resolved unit
area. -/
def itemAssignedArea (p : Product) (unitArea : Option Rat) : Option Rat :=
  let a := explicitAreaOf p
  if truthyQ a then a else unitArea

/-- The product synthesized for a size key with no bound products
(database.ts lines 319-348). -/
def synthProduct (nid : Int) (sizeKey : String) (now : String) : Product :=
  let dims := parseDims sizeKey
  { id := nid
    name := "Sticker " ++ sizeKey
    category := "stickers"
    price := 0
    stock := 0
    cost := 0
    size := some sizeKey
    width_mm := dims.map Prod.fst
    height_mm := dims.map Prod.snd
    area_mm2 := dims.map (fun wh => wh.1 * wh.2)
    created_at := now }

/-- One entry of `perProductAssign` (database.ts line 313): the target
product's position, the assigned quantity and the per-item area. -/
structure Assign where
  idx : Nat
  qty : Nat
  area : Option Rat
deriving DecidableEq

/-- The assignments produced for one size key of the plate. -/
structure KeyBlock where
  sizeKey : String
  qty : Nat
  unitArea : Option Rat
  assigns : List Assign
deriving DecidableEq

/-- Accumulator of the main loop of `printPlate` (database.ts lines
311-368): the catalog extended with synthesized products, the running
`totalArea` and `totalCount`, and the assignments grouped by size key. -/
structure RunAcc where
  prods : List Product
  totalArea : Rat
  totalCount : Nat
  blocks : List KeyBlock
deriving DecidableEq

/-- Zip catalog entries with their assigned quantities, attaching the
per-item area (the body of the forEach at database.ts lines 360-366). -/
def mkAssigns : List (Nat × Product) → List Nat → Option Rat → List Assign
  | (i, p) :: es, q :: qs, u => ⟨i, q, itemAssignedArea p u⟩ :: mkAssigns es qs u
  | _, _, _ => []

/-- Processing of one size key of `countsBySize` (database.ts lines
315-368): synthesize a product when the bucket is empty and the quantity
positive, accumulate `totalArea`/`totalCount`, and record the split. -/
def processKey (orig : List Product) (nid : Int) (now : String)
    (acc : RunAcc) (kv : String × Nat) : RunAcc :=
  let sizeKey := kv.1
  let q := kv.2
  let unitArea := resolveUnitArea sizeKey (stickersBySize orig sizeKey)
  let contrib := if truthyQ unitArea then unitArea.getD 0 * (q : Rat) else 0
  if (bucketEntries orig sizeKey).isEmpty ∧ 0 < q then
    { prods := acc.prods ++ [synthProduct nid sizeKey now]
      totalArea := acc.totalArea + contrib
      totalCount := acc.totalCount + q
      blocks := acc.blocks ++ [⟨sizeKey, q, unitArea,
        mkAssigns [(acc.prods.length, synthProduct nid sizeKey now)] (assignQtys q 1) unitArea⟩] }
  else
    { prods := acc.prods
      totalArea := acc.totalArea + contrib
      totalCount := acc.totalCount + q
      blocks := acc.blocks ++ [⟨sizeKey, q, unitArea,
        mkAssigns (bucketEntries orig sizeKey) (assignQtys q (bucketEntries orig sizeKey).length) unitArea⟩] }

/-- The main loop over the keys of `countsBySize`, in insertion order. -/
def processKeys (orig : List Product) (nid : Int) (now : String) :
    RunAcc → List (String × Nat) → RunAcc
  | acc, [] => acc
  | acc, kv :: rest => processKeys orig nid now (processKey orig nid now acc kv) rest

/-- The whole allocation run of `printPlate` on a catalog. -/
def plateRun (orig : List Product) (nid : Int) (now : String)
    (counts : List (String × Nat)) : RunAcc :=
  processKeys orig nid now ⟨orig, 0, 0, []⟩ counts

/-- The allocation run of `printPlate` for a plate found in the store; the
id for a synthesized product is read from the still-unwritten products
table, hence computed from the original catalog (database.ts line 320). -/
def printPlateRun (db : DB) (plate : PrintingPlate) (now : String) : RunAcc :=
  plateRun db.products (nextIdInt (db.products.map Product.id)) now (countsBySize plate)

/-- The unit cost assigned to one entry of `perProductAssign` (database.ts
lines 371-387): in area mode (`totalArea > 0`) the cost per area unit times
the item's truthy area, falling back to `plate.cost / max(1, totalCount)`;
in count mode the flat `plate.cost / totalCount` (0 when the count is 0). -/
def assignUnitCost (plateCost totalArea : Rat) (totalCount : Nat) (a : Assign) : Rat :=
  if 0 < totalArea then
    if truthyQ a.area then plateCost / totalArea * a.area.getD 0
    else plateCost / ((max 1 totalCount : Nat) : Rat)
  else if 0 < totalCount then plateCost / (totalCount : Rat)
  else 0

/-- The flattened `perProductAssign` list, in push order. -/
def runAssigns (acc : RunAcc) : List Assign :=
  (acc.blocks.map KeyBlock.assigns).flatten

/-- Replace the element at one position; models in-place mutation of the
array element a JavaScript reference points to. -/
def modifyAt : List α → Nat → (α → α) → List α
  | [], _, _ => []
  | x :: xs, 0, f => f x :: xs
  | x :: xs, n + 1, f => x :: modifyAt xs n f

/-- Mutate the first element satisfying the predicate (models TS
`find`/`findIndex` followed by in-place mutation of the found element). -/
def modifyFirst (p : α → Bool) (f : α → α) : List α → List α
  | [] => []
  | x :: xs => if p x then f x :: xs else x :: modifyFirst p f xs

/-- The stock/cost update applied to one assigned product during
`printPlate` (database.ts lines 375-382 and identically 388-395):
stock increases by the assigned quantity; with positive prior stock the
cost becomes the quantity-weighted blend, otherwise the assigned unit
cost replaces it. -/
def ledgerUpdate (qty unitCost : Rat) (p : Product) : Product :=
  { p with
    stock := p.stock + qty
    cost :=
      if 0 < p.stock then (p.stock * p.cost + qty * unitCost) / (p.stock + qty)
      else unitCost }

/-- The cost-distribution phase of `printPlate` (database.ts lines
370-397), applied to the extended catalog of the run. -/
def applyCostPhase (plateCost : Rat) (acc : RunAcc) : List Product :=
  (runAssigns acc).foldl
    (fun ps a =>
      modifyAt ps a.idx (ledgerUpdate (a.qty : Rat) (assignUnitCost plateCost acc.totalArea acc.totalCount a)))
    acc.prods

/-- `printPlate` (database.ts lines 259-401): no-op failure when the plate
is missing or already printed; otherwise mark it printed, run the
allocation and apply the cost phase. -/
def printPlate (db : DB) (now : String) (plateId : Int) : DB × Bool :=
  match db.printing_plates.find? (fun p => p.id == plateId) with
  | none => (db, false)
  | some plate =>
    if plate.is_printed then (db, false)
    else
      let plates' := modifyFirst (fun p => p.id == plateId)
        (fun p => { p with is_printed := true, date_printed := some now }) db.printing_plates
      let acc := printPlateRun db plate now
      ({ db with products := applyCostPhase plate.cost acc, printing_plates := plates' }, true)

/-- `deletePrintingPlate` (database.ts lines 472-481): failure when missing
or printed; otherwise splice out the first plate with the id. -/
def deletePrintingPlate (db : DB) (plateId : Int) : DB × Bool :=
  match db.printing_plates.find? (fun p => p.id == plateId) with
  | none => (db, false)
  | some plate =>
    if plate.is_printed then (db, false)
    else ({ db with printing_plates := db.printing_plates.eraseP (fun p => p.id == plateId) }, true)

/-- The weighted-average stock/cost update of `addPurchase` (database.ts
lines 206-221), including the `combinedQty > 0` guard. -/
def purchaseLedger (qty unitCost : Rat) (p : Product) : Product :=
  { p with
    cost :=
      if 0 < p.stock then
        if 0 < p.stock + qty then (p.stock * p.cost + qty * unitCost) / (p.stock + qty)
        else p.cost
      else unitCost
    stock := p.stock + qty }

/-- The caller-supplied fields of a purchase (database.ts line 191). -/
structure PurchaseInput where
  product_id : Int
  quantity : Rat
  unit_cost : Rat
  total : Rat
deriving DecidableEq

/-- `addPurchase` (database.ts lines 191-226): append the purchase record,
then apply the weighted-average update to the first product with the id
(no product table change when the id is unknown). -/
def addPurchase (db : DB) (inp : PurchaseInput) (now : String) : DB × Int :=
  let id := nextIdInt (db.purchases.map Purchase.id)
  let newPurchase : Purchase :=
    { id := id, product_id := inp.product_id, quantity := inp.quantity
      unit_cost := inp.unit_cost, total := inp.total, date := now }
  let products' := modifyFirst (fun p => p.id == inp.product_id)
    (purchaseLedger inp.quantity inp.unit_cost) db.products
  ({ db with purchases := db.purchases ++ [newPurchase], products := products' }, id)

/-- A finite sequence of stock additions to one product applied through the
purchase path. -/
def applyPurchaseSeq (db : DB) (pid : Int) (adds : List (Rat × Rat)) : DB :=
  adds.foldl (fun d qc => (addPurchase d ⟨pid, qc.1, qc.2, qc.1 * qc.2⟩ "").1) db

/-- One `sizesInfo` entry of the preview (database.ts lines 424-449). -/
structure SizeInfo where
  sizeKey : String
  qty : Nat
  area_mm2 : Option Rat
  products : List Product
deriving DecidableEq

/-- One entry of the preview report's `items` (database.ts lines 459,
465). -/
structure PreviewItem where
  sizeKey : String
  qty : Nat
  unitArea : Option Rat
  unitCost : Rat
  totalCost : Rat
  products : List Product
deriving DecidableEq

/-- The preview report (database.ts line 469). -/
structure PreviewReport where
  plateId : Int
  plateName : String
  plateCost : Rat
  items : List PreviewItem
  totalCost : Rat
deriving DecidableEq

/-- The `sizesInfo` computation of the preview (database.ts lines
426-449): same grouping and area resolution as `printPlate`, no
synthesis. -/
def previewSizesInfo (products : List Product) (counts : List (String × Nat)) : List SizeInfo :=
  counts.map (fun kv =>
    let items := stickersBySize products kv.1
    ⟨kv.1, kv.2, resolveUnitArea kv.1 items, items⟩)

/-- `previewPrintingPlate` (database.ts lines 404-470).  The source reads
the tables and never calls `setTable`, so the store component of the
result is the input store. -/
def previewPrintingPlate (db : DB) (plateId : Int) : Option PreviewReport × DB :=
  match db.printing_plates.find? (fun p => p.id == plateId) with
  | none => (none, db)
  | some plate =>
    let infos := previewSizesInfo db.products (countsBySize plate)
    let totalArea := (infos.map (fun it => it.area_mm2.getD 0 * (it.qty : Rat))).sum
    let items :=
      if 0 < totalArea then
        infos.map (fun it =>
          let unitArea := it.area_mm2.getD 0
          let unitCost := if 0 < unitArea then plate.cost / totalArea * unitArea else 0
          (⟨it.sizeKey, it.qty, some unitArea, unitCost, unitCost * (it.qty : Rat), it.products⟩ : PreviewItem))
      else
        let totalCount := (infos.map SizeInfo.qty).sum
        let costPerSticker := if 0 < totalCount then plate.cost / (totalCount : Rat) else 0
        infos.map (fun it =>
          (⟨it.sizeKey, it.qty, it.area_mm2, costPerSticker, costPerSticker * (it.qty : Rat), it.products⟩ : PreviewItem))
    (some ⟨plate.id, plate.name, plate.cost, items, plate.cost⟩, db)

/-- Explicit description of the key blocks the main loop produces, indexed
by the length of the catalog extended so far (used to reason about
`processKeys` by structural recursion on the key list). -/
def runBlocksFrom (orig : List Product) (nid : Int) (now : String) :
    Nat → List (String × Nat) → List KeyBlock
  | _, [] => []
  | len, kv :: rest =>
    let bucket := bucketEntries orig kv.1
    let u := resolveUnitArea kv.1 (stickersBySize orig kv.1)
    if bucket.isEmpty ∧ 0 < kv.2 then
      ⟨kv.1, kv.2, u, mkAssigns [(len, synthProduct nid kv.1 now)] (assignQtys kv.2 1) u⟩
        :: runBlocksFrom orig nid now (len + 1) rest
    else
      ⟨kv.1, kv.2, u, mkAssigns bucket (assignQtys kv.2 bucket.length) u⟩
        :: runBlocksFrom orig nid now len rest

/-- The products the run synthesizes, in key order. -/
def runSynthsFrom (orig : List Product) (nid : Int) (now : String) :
    List (String × Nat) → List Product
  | [] => []
  | kv :: rest =>
    if (bucketEntries orig kv.1).isEmpty ∧ 0 < kv.2 then
      synthProduct nid kv.1 now :: runSynthsFrom orig nid now rest
    else runSynthsFrom orig nid now rest

/-- The contribution of one size key to `totalArea` (database.ts lines
352-353). -/
def keyAreaContrib (orig : List Product) (kv : String × Nat) : Rat :=
  let u := resolveUnitArea kv.1 (stickersBySize orig kv.1)
  if truthyQ u then u.getD 0 * (kv.2 : Rat) else 0

/-- `totalArea` accumulated over the keys of the plate map. -/
def countsAreaSum (orig : List Product) (counts : List (String × Nat)) : Rat :=
  (counts.map (keyAreaContrib orig)).sum

/-- `totalCount` accumulated over the keys of the plate map. -/
def countsQtySum (counts : List (String × Nat)) : Nat :=
  (counts.map Prod.snd).sum

/-- The total plate cost handed out by the cost-distribution phase: the sum
over all entries of `perProductAssign` of assigned unit cost times assigned
quantity. -/
def runOutlay (plateCost : Rat) (acc : RunAcc) : Rat :=
  ((runAssigns acc).map
    (fun a => assignUnitCost plateCost acc.totalArea acc.totalCount a * (a.qty : Rat))).sum

/-- Transcription of claim C5's stated priority, read literally: (1) the
first bound product having `area_mm2` (present) or both `width_mm` and
`height_mm` (present) supplies the area, a present `area_mm2` taking
precedence over `width*height`; else (2) the case-insensitive defaults;
else (3) the parsed `WxH` product; else undefined. -/
def resolveUnitAreaClaim (sizeKey : String) (items : List Product) : Option Rat :=
  match items.find? (fun p => p.area_mm2.isSome || (p.width_mm.isSome && p.height_mm.isSome)) with
  | some p =>
    match p.area_mm2 with
    | some a => some a
    | none => some (p.width_mm.getD 0 * p.height_mm.getD 0)
  | none =>
    if strToLower sizeKey == "chico" then some 2500
    else if strToLower sizeKey == "grande" then some 10000
    else (parseDims sizeKey).map (fun wh => wh.1 * wh.2)

/-- Amended claim C5, following the code's truthiness: (1) considers the
first bound product whose `area_mm2` is nonzero or whose `width_mm` and
`height_mm` are both nonzero; the candidate value is its `area_mm2` when
that field is present (even zero), else `width*height`; a nonzero candidate
is the resolved area.  (2) and (3) as in the claim apply when there is no
candidate or the candidate is zero; when they also fail, the result is the
zero candidate if one existed, else undefined. -/
def resolveUnitAreaAmendedSpec (sizeKey : String) (items : List Product) : Option Rat :=
  let candidate := itemsCandidateArea items
  let fallback :=
    if strToLower sizeKey == "chico" then some (2500 : Rat)
    else if strToLower sizeKey == "grande" then some 10000
    else (parseDims sizeKey).map (fun wh => wh.1 * wh.2)
  match candidate with
  | some a =>
    if a = 0 then
      match fallback with
      | some d => some d
      | none => some 0
    else some a
  | none => fallback

/-! Concrete fixtures used by witnesses and counterexamples. -/

/-- The spec §8 scenario's small sticker product. -/
def wChico : Product :=
  { id := 1, name := "Sticker Chico", category := "stickers", price := 300
    stock := 0, cost := 0, size := some "chico" }

/-- The spec §8 scenario's large sticker product. -/
def wGrande : Product :=
  { id := 2, name := "Sticker Grande", category := "stickers", price := 500
    stock := 0, cost := 0, size := some "grande" }

/-- The spec §8 scenario's plate: cost 18500, chico 100, grande 50. -/
def wPlate : PrintingPlate :=
  { id := 1, name := "plancha", cost := 18500
    stickers_quantities := some [("chico", 100), ("grande", 50)], is_printed := false }

/-- The spec §8 scenario's store. -/
def wDb : DB := ⟨[wChico, wGrande], [wPlate], []⟩

/-- Two products sharing size key "s" with different explicit areas. -/
def ce2A : Product :=
  { id := 1, name := "A", category := "stickers", price := 0, stock := 0, cost := 0
    size := some "s", area_mm2 := some 100 }

/-- Second product of the shared-key pair, with a much larger area. -/
def ce2B : Product :=
  { id := 2, name := "B", category := "stickers", price := 0, stock := 0, cost := 0
    size := some "s", area_mm2 := some 900 }

/-- Plate of cost 1000 requesting two units of size "s". -/
def ce2Plate : PrintingPlate :=
  { id := 1, name := "p", cost := 1000
    stickers_quantities := some [("s", 2)], is_printed := false }

/-- Store for the area-mode cost-reconciliation counterexample. -/
def ce2Db : DB := ⟨[ce2A, ce2B], [ce2Plate], []⟩

/-- Plate with an unresolvable size key and quantity 0 (count mode with
total count 0) but nonzero cost. -/
def ce2bPlate : PrintingPlate :=
  { id := 1, name := "p", cost := 18500
    stickers_quantities := some [("foo", 0)], is_printed := false }

/-- Store for the count-mode cost-reconciliation counterexample. -/
def ce2bDb : DB := ⟨[], [ce2bPlate], []⟩

/-- A bound product whose `area_mm2` field is present but zero. -/
def ce5P : Product :=
  { id := 1, name := "Z", category := "stickers", price := 0, stock := 0, cost := 0
    size := some "chico", area_mm2 := some 0 }

/-- A zero-stock product with nonzero recorded cost, bound to "chico". -/
def ce8P : Product :=
  { id := 1, name := "A", category := "stickers", price := 0, stock := 0, cost := 5
    size := some "chico" }

/-- Plate requesting zero "chico" stickers. -/
def ce8Plate : PrintingPlate :=
  { id := 1, name := "p", cost := 100
    stickers_quantities := some [("chico", 0)], is_printed := false }

/-- Store for the zero-quantity cost-overwrite counterexample. -/
def ce8Db : DB := ⟨[ce8P], [ce8Plate], []⟩

/-- Two bound "chico" products with differing stock, for the conservation
witness. -/
def w1A : Product :=
  { id := 1, name := "A", category := "stickers", price := 0, stock := 2, cost := 10
    size := some "chico" }

/-- Second bound "chico" product for the conservation witness. -/
def w1B : Product :=
  { id := 2, name := "B", category := "stickers", price := 0, stock := 0, cost := 0
    size := some "chico" }

/-- Plate requesting five "chico" stickers. -/
def w1Plate : PrintingPlate :=
  { id := 1, name := "p", cost := 100
    stickers_quantities := some [("chico", 5)], is_printed := false }

/-- Store for the conservation witness. -/
def w1Db : DB := ⟨[w1A, w1B], [w1Plate], []⟩

/-- An already-printed plate, for the lifecycle witness. -/
def w3Printed : PrintingPlate :=
  { id := 1, name := "done", cost := 100
    stickers_quantities := some [], is_printed := true }

/-- A pending plate, for the lifecycle witness. -/
def w3Pending : PrintingPlate :=
  { id := 2, name := "todo", cost := 100
    stickers_quantities := some [], is_printed := false }

/-- Store with one printed and one pending plate. -/
def w3Db : DB := ⟨[], [w3Printed, w3Pending], []⟩

/-- A zero-stock product for the weighted-average witness. -/
def w4P : Product :=
  { id := 1, name := "P", category := "remeras", price := 0, stock := 0, cost := 99 }

/-- Store for the weighted-average witness. -/
def w4Db : DB := ⟨[w4P], [], []⟩

/-- A positive-stock "chico" product for the zero-quantity frame witness. -/
def w8P : Product :=
  { id := 1, name := "A", category := "stickers", price := 0, stock := 4, cost := 9
    size := some "chico" }

/-- Store pairing the positive-stock product with a zero-quantity plate. -/
def w8Db : DB := ⟨[w8P], [ce8Plate], []⟩

/-- Plate requesting seven stickers of the literal-dimension key "30x40",
on an empty catalog (forces synthesis). -/
def w9Plate : PrintingPlate :=
  { id := 1, name := "p", cost := 600
    stickers_quantities := some [("30x40", 7)], is_printed := false }

/-- Store for the synthesis witness. -/
def w9Db : DB := ⟨[], [w9Plate], []⟩

/-- A non-sticker product, for the frame witness. -/
def w10P : Product :=
  { id := 5, name := "Remera M", category := "remeras", price := 3500, stock := 3, cost := 1500
    size := some "chico" }

/-- Store pairing a non-sticker product with a plate that prints its size
key. -/
def w10Db : DB := ⟨[w10P], [w1Plate], []⟩

/-! Basic lemmas about the quantity split. -/

theorem assignLoop_length (base : Nat) : ∀ (k rem : Nat), (assignLoop base rem k).length = k := by
  intro k
  induction k with
  | zero => intro rem; rfl
  | succ k ih => intro rem; simp [assignLoop, ih]

theorem assignQtys_length (q n : Nat) : (assignQtys q n).length = n := by
  unfold assignQtys
  split
  · simp [*]
  · exact assignLoop_length _ _ _

theorem assignLoop_eq_map_range (base : Nat) :
    ∀ (k rem : Nat), assignLoop base rem k
      = (List.range k).map (fun i => base + if i < rem then 1 else 0) := by
  intro k
  induction k with
  | zero => intro rem; rfl
  | succ k ih =>
    intro rem
    rw [List.range_succ_eq_map]
    simp only [List.map_cons, List.map_map]
    unfold assignLoop
    congr 1
    rw [ih (rem - 1)]
    refine List.map_congr_left (fun i _ => ?_)
    have h : (i < rem - 1) ↔ (Nat.succ i < rem) := by omega
    simp only [Function.comp_apply]
    congr 1
    simp only [h]

theorem assignLoop_sum (base : Nat) :
    ∀ (k rem : Nat), (assignLoop base rem k).sum = base * k + min rem k := by
  intro k
  induction k with
  | zero => intro rem; simp [assignLoop]
  | succ k ih =>
    intro rem
    unfold assignLoop
    rw [List.sum_cons, ih, Nat.mul_succ]
    split <;> omega

theorem assignQtys_sum {n : Nat} (q : Nat) (h : 0 < n) : (assignQtys q n).sum = q := by
  unfold assignQtys
  rw [if_neg (Nat.pos_iff_ne_zero.mp h), assignLoop_sum]
  have h1 : q / n * n ≤ q := Nat.div_mul_le_self q n
  have h2 : q / n * n + q % n = q := by
    rw [Nat.mul_comm]
    exact Nat.div_add_mod q n
  have h3 : q % n < n := Nat.mod_lt q h
  omega

theorem mem_assignQtys_zero {n x : Nat} (hx : x ∈ assignQtys 0 n) : x = 0 := by
  rcases Nat.eq_zero_or_pos n with h | h
  · subst h
    simp [assignQtys] at hx
  · exact List.sum_eq_zero_iff.mp (assignQtys_sum 0 h) x hx

/-- Claim C6: for every size key with quantity q split across n bound
products (n > 0), printPlate assigns base = floor(q / n) to each product
and one extra unit to exactly the first q - base*n products in catalog
order (`assignQtys` is the per-key split printPlate applies, database.ts
lines 357-366); the {4,3,3} instance is the witness below. -/
theorem claim6_remainder_distribution (q n : Nat) (h : 0 < n) :
    assignQtys q n
      = (List.range n).map (fun i => q / n + if i < q - q / n * n then 1 else 0) := by
  unfold assignQtys
  rw [if_neg (Nat.pos_iff_ne_zero.mp h)]
  exact assignLoop_eq_map_range _ _ _

theorem claim6_witness : 0 < 3 ∧ assignQtys 10 3 = [4, 3, 3] :=
  ⟨by decide, (claim6_remainder_distribution 10 3 (by decide)).trans (by decide)⟩

/-- Claim C7: previewPrintingPlate never adds a product, never changes any
product's stock, cost, or other fields, and never changes any plate's
is_printed flag (the store component of the result is the input store);
calling it twice in succession returns identical reports. -/
theorem claim7_preview_pure_idempotent (db : DB) (plateId : Int) :
    (previewPrintingPlate db plateId).2 = db ∧
    (previewPrintingPlate (previewPrintingPlate db plateId).2 plateId).1
      = (previewPrintingPlate db plateId).1 := by
  have h2 : (previewPrintingPlate db plateId).2 = db := by
    unfold previewPrintingPlate
    split <;> rfl
  exact ⟨h2, by rw [h2]⟩

/-- Counterexample to claim C5 as stated: a bound product whose `area_mm2`
field is present but zero.  The claim's priority (1) selects that product
and yields area 0, but the code's truthiness test skips the zero field and
resolves "chico" to the 2500 default. -/
theorem claim5_area_resolver_counterexample :
    resolveUnitArea "chico" [ce5P] = some 2500 ∧
    resolveUnitAreaClaim "chico" [ce5P] = some 0 ∧
    resolveUnitArea "chico" [ce5P] ≠ resolveUnitAreaClaim "chico" [ce5P] := by
  refine ⟨by decide, by decide, by decide⟩

/-- Claim C5 as amended: the resolver's first step only considers bound
products with a truthy (nonzero) `area_mm2` or truthy width and height; the
candidate value is `area_mm2` when present (even zero), else width*height;
a zero candidate falls through to the defaults and the `WxH` parse, and is
returned as-is when those fail. -/
theorem claim5_area_resolver_amended (sizeKey : String) (items : List Product) :
    resolveUnitArea sizeKey items = resolveUnitAreaAmendedSpec sizeKey items := by
  have hfb : (if strToLower sizeKey == "chico" then some (2500 : Rat)
      else if strToLower sizeKey == "grande" then some 10000
      else (parseDims sizeKey).map (fun wh => wh.1 * wh.2)) = sizeDefaults sizeKey := by
    unfold sizeDefaults
    norm_num
  unfold resolveUnitArea resolveUnitAreaAmendedSpec
  rw [hfb]
  cases h : itemsCandidateArea items with
  | none =>
    simp only [truthyQ, Bool.false_eq_true, if_false]
    cases sizeDefaults sizeKey <;> rfl
  | some a =>
    rcases eq_or_ne a 0 with ha | ha
    · subst ha
      simp only [truthyQ, bne_self_eq_false, Bool.false_eq_true, if_false]
      cases sizeDefaults sizeKey <;> simp
    · simp [truthyQ, bne_iff_ne, ha]

/-- In a list whose head part rejects the predicate, `find?` returns the
first element of the tail part when it satisfies it. -/
theorem find?_append_first {α : Type} {p : α → Bool} {a : α} :
    ∀ {l₁ : List α} (l₂ : List α), (∀ x ∈ l₁, ¬p x = true) → p a = true →
      List.find? p (l₁ ++ a :: l₂) = some a := by
  intro l₁
  induction l₁ with
  | nil => intro l₂ _ ha; simp [List.find?_cons, ha]
  | cons y ys ih =>
    intro l₂ hl ha
    have hy : p y = false := by
      have := hl y (by simp)
      simpa using this
    simpa [List.find?_cons, hy] using ih l₂ (fun x hx => hl x (by simp [hx])) ha

/-- Claim C3: printPlate returns false and changes nothing when the plate
is missing or already printed; deletePrintingPlate returns false and
removes nothing in those cases, and removes exactly the referenced plate
when it exists and is pending. -/
theorem claim3_lifecycle_enforcement (db : DB) (now : String) (plateId : Int) :
    (db.printing_plates.find? (fun p => p.id == plateId) = none →
      printPlate db now plateId = (db, false) ∧ deletePrintingPlate db plateId = (db, false)) ∧
    (∀ pl, db.printing_plates.find? (fun p => p.id == plateId) = some pl →
      pl.is_printed = true →
      printPlate db now plateId = (db, false) ∧ deletePrintingPlate db plateId = (db, false)) ∧
    (∀ pl, db.printing_plates.find? (fun p => p.id == plateId) = some pl →
      pl.is_printed = false →
      deletePrintingPlate db plateId
        = ({ db with printing_plates := db.printing_plates.eraseP (fun p => p.id == plateId) }, true) ∧
      ∃ l₁ l₂, db.printing_plates = l₁ ++ pl :: l₂ ∧
        (∀ x ∈ l₁, ¬(x.id == plateId) = true) ∧
        db.printing_plates.eraseP (fun p => p.id == plateId) = l₁ ++ l₂) := by
  refine ⟨?_, ?_, ?_⟩
  · intro hnone
    constructor
    · unfold printPlate
      rw [hnone]
    · unfold deletePrintingPlate
      rw [hnone]
  · intro pl hfind hpr
    constructor
    · unfold printPlate
      rw [hfind]
      simp [hpr]
    · unfold deletePrintingPlate
      rw [hfind]
      simp [hpr]
  · intro pl hfind hpr
    constructor
    · unfold deletePrintingPlate
      rw [hfind]
      simp [hpr]
    · obtain ⟨a, l₁, l₂, hl₁, hpa, hsplit, herase⟩ :=
        List.exists_of_eraseP (List.mem_of_find?_eq_some hfind) (List.find?_some hfind)
      have : List.find? (fun p => p.id == plateId) db.printing_plates = some a := by
        rw [hsplit]
        exact find?_append_first l₂ hl₁ hpa
      have ha : a = pl := by
        rw [hfind] at this
        exact (Option.some.injEq _ _).mp this.symm
      subst ha
      exact ⟨l₁, l₂, hsplit, hl₁, herase⟩

theorem claim3_witness :
    printPlate w3Db "t" 1 = (w3Db, false) ∧
    printPlate w3Db "t" 3 = (w3Db, false) ∧
    deletePrintingPlate w3Db 1 = (w3Db, false) ∧
    deletePrintingPlate w3Db 2 = ({ w3Db with printing_plates := [w3Printed] }, true) := by
  refine ⟨?_, ?_, ?_, ?_⟩
  · exact ((claim3_lifecycle_enforcement w3Db "t" 1).2.1 w3Printed (by decide) (by decide)).1
  · exact ((claim3_lifecycle_enforcement w3Db "t" 3).1 (by decide)).1
  · exact ((claim3_lifecycle_enforcement w3Db "t" 1).2.1 w3Printed (by decide) (by decide)).2
  · exact (((claim3_lifecycle_enforcement w3Db "t" 2).2.2 w3Pending (by decide) (by decide)).1).trans
      (by decide)

/-! The purchase path: lemmas for the weighted-average claim. -/

theorem modifyFirst_find_eq {α : Type} (p : α → Bool) (f : α → α)
    (hf : ∀ a, p a = true → p (f a) = true) :
    ∀ (l : List α), (modifyFirst p f l).find? p = (l.find? p).map f := by
  intro l
  induction l with
  | nil => rfl
  | cons x xs ih =>
    by_cases hx : p x = true
    · simp [modifyFirst, hx, List.find?_cons, hf x hx]
    · have hx' : p x = false := by simpa using hx
      simp [modifyFirst, hx', List.find?_cons, ih]

theorem applyPurchaseSeq_products (pid : Int) :
    ∀ (adds : List (Rat × Rat)) (db : DB),
      (applyPurchaseSeq db pid adds).products
        = adds.foldl
            (fun ps qc => modifyFirst (fun p => p.id == pid) (purchaseLedger qc.1 qc.2) ps)
            db.products := by
  intro adds
  induction adds with
  | nil => intro db; rfl
  | cons a rest ih =>
    intro db
    have hstep : applyPurchaseSeq db pid (a :: rest)
        = applyPurchaseSeq ((addPurchase db ⟨pid, a.1, a.2, a.1 * a.2⟩ "").1) pid rest := rfl
    rw [hstep, ih]
    rfl

theorem find_foldl_modifyFirst (pid : Int) :
    ∀ (adds : List (Rat × Rat)) (ps : List Product) (p0 : Product),
      ps.find? (fun p => p.id == pid) = some p0 →
      ((adds.foldl
          (fun l qc => modifyFirst (fun p => p.id == pid) (purchaseLedger qc.1 qc.2) l)
          ps).find? (fun p => p.id == pid))
        = some (adds.foldl (fun pr qc => purchaseLedger qc.1 qc.2 pr) p0) := by
  intro adds
  induction adds with
  | nil => intro ps p0 h; simpa using h
  | cons a rest ih =>
    intro ps p0 h
    simp only [List.foldl_cons]
    apply ih
    rw [modifyFirst_find_eq (fun p => p.id == pid) (purchaseLedger a.1 a.2) (fun x hx => hx) ps, h]
    rfl

theorem purchaseLedger_foldl_pos :
    ∀ (adds : List (Rat × Rat)) (p : Product), 0 < p.stock →
      (∀ qc ∈ adds, 0 < qc.1) →
      (adds.foldl (fun pr qc => purchaseLedger qc.1 qc.2 pr) p).stock
          = p.stock + (adds.map Prod.fst).sum ∧
      (adds.foldl (fun pr qc => purchaseLedger qc.1 qc.2 pr) p).cost
          = (p.stock * p.cost + (adds.map (fun qc => qc.1 * qc.2)).sum)
              / (p.stock + (adds.map Prod.fst).sum) := by
  intro adds
  induction adds with
  | nil =>
    intro p hp _
    refine ⟨by simp, ?_⟩
    simp only [List.foldl_nil, List.map_nil, List.sum_nil, add_zero]
    rw [eq_comm, div_eq_iff (ne_of_gt hp)]
    ring
  | cons a rest ih =>
    intro p hp hall
    have ha : 0 < a.1 := hall a (by simp)
    have hcomb : 0 < p.stock + a.1 := add_pos hp ha
    have hstock' : (purchaseLedger a.1 a.2 p).stock = p.stock + a.1 := rfl
    have hcost' : (purchaseLedger a.1 a.2 p).cost
        = (p.stock * p.cost + a.1 * a.2) / (p.stock + a.1) := by
      simp [purchaseLedger, if_pos hp, if_pos hcomb]
    obtain ⟨ihs, ihc⟩ := ih (purchaseLedger a.1 a.2 p) (by rw [hstock']; exact hcomb)
      (fun qc hqc => hall qc (by simp [hqc]))
    constructor
    · rw [List.foldl_cons, ihs, hstock', List.map_cons, List.sum_cons]
      ring
    · rw [List.foldl_cons, ihc, hstock', hcost', List.map_cons, List.sum_cons,
        List.map_cons, List.sum_cons]
      rw [mul_comm (p.stock + a.1), div_mul_cancel₀ _ (ne_of_gt hcomb)]
      congr 1 <;> ring

theorem purchase_core (adds : List (Rat × Rat)) (p : Product)
    (h0 : p.stock = 0) (hpos : ∀ qc ∈ adds, 0 < qc.1) (hne : adds ≠ []) :
    (adds.foldl (fun pr qc => purchaseLedger qc.1 qc.2 pr) p).cost
      = (adds.map (fun qc => qc.1 * qc.2)).sum / (adds.map Prod.fst).sum := by
  cases adds with
  | nil => exact absurd rfl hne
  | cons a rest =>
    have ha : 0 < a.1 := hpos a (by simp)
    have hstock' : (purchaseLedger a.1 a.2 p).stock = a.1 := by
      show p.stock + a.1 = a.1
      rw [h0, zero_add]
    have hcost' : (purchaseLedger a.1 a.2 p).cost = a.2 := by
      simp [purchaseLedger, h0]
    obtain ⟨-, ihc⟩ := purchaseLedger_foldl_pos rest (purchaseLedger a.1 a.2 p)
      (by rw [hstock']; exact ha) (fun qc hqc => hpos qc (by simp [hqc]))
    rw [List.foldl_cons, ihc, hstock', hcost', List.map_cons, List.sum_cons,
      List.map_cons, List.sum_cons]

/-- Claim C4: for a product starting at stock 0, a finite sequence of
positive-quantity additions applied via the purchase path leaves the
product's cost at the true weighted average sum(qty*cost)/sum(qty), and
the result is the same for every permutation of the sequence. -/
theorem claim4_weighted_average (db : DB) (pid : Int) (p0 : Product)
    (adds adds' : List (Rat × Rat))
    (hfind : db.products.find? (fun p => p.id == pid) = some p0)
    (h0 : p0.stock = 0)
    (hpos : ∀ qc ∈ adds, 0 < qc.1)
    (hne : adds ≠ [])
    (hperm : adds.Perm adds') :
    ((applyPurchaseSeq db pid adds).products.find? (fun p => p.id == pid)).map Product.cost
      = some ((adds.map (fun qc => qc.1 * qc.2)).sum / (adds.map Prod.fst).sum) ∧
    ((applyPurchaseSeq db pid adds').products.find? (fun p => p.id == pid)).map Product.cost
      = ((applyPurchaseSeq db pid adds).products.find? (fun p => p.id == pid)).map Product.cost := by
  have main : ∀ (l : List (Rat × Rat)), (∀ qc ∈ l, 0 < qc.1) → l ≠ [] →
      ((applyPurchaseSeq db pid l).products.find? (fun p => p.id == pid)).map Product.cost
        = some ((l.map (fun qc => qc.1 * qc.2)).sum / (l.map Prod.fst).sum) := by
    intro l hl hlne
    rw [applyPurchaseSeq_products, find_foldl_modifyFirst pid l db.products p0 hfind]
    rw [Option.map_some']
    rw [purchase_core l p0 h0 hl hlne]
  have hne' : adds' ≠ [] := by
    intro h
    apply hne
    have := hperm.length_eq
    rw [h, List.length_nil] at this
    exact List.length_eq_zero.mp this
  have hpos' : ∀ qc ∈ adds', 0 < qc.1 := fun qc hqc => hpos qc (hperm.mem_iff.mpr hqc)
  refine ⟨main adds hpos hne, ?_⟩
  rw [main adds hpos hne, main adds' hpos' hne']
  have h1 : (adds'.map (fun qc => qc.1 * qc.2)).sum = (adds.map (fun qc => qc.1 * qc.2)).sum :=
    ((hperm.map _).sum_eq).symm
  have h2 : (adds'.map Prod.fst).sum = (adds.map Prod.fst).sum :=
    ((hperm.map _).sum_eq).symm
  rw [h1, h2]

theorem claim4_witness :
    w4Db.products.find? (fun p => p.id == 1) = some w4P ∧ w4P.stock = 0 ∧
    ((applyPurchaseSeq w4Db 1 [(1, 4), (3, 8)]).products.find? (fun p => p.id == 1)).map Product.cost
      = some 7 ∧
    ((applyPurchaseSeq w4Db 1 [(3, 8), (1, 4)]).products.find? (fun p => p.id == 1)).map Product.cost
      = some 7 := by
  have h := claim4_weighted_average w4Db 1 w4P [(1, 4), (3, 8)] [(3, 8), (1, 4)]
    (by decide) (by decide) (by decide) (by decide) (by decide)
  exact ⟨by decide, by decide, h.1.trans (by decide), h.2.trans (h.1.trans (by decide))⟩

/-! Index and bucket lemmas for the allocation run. -/

theorem modifyAt_length {α : Type} : ∀ (l : List α) (n : Nat) (f : α → α),
    (modifyAt l n f).length = l.length := by
  intro l
  induction l with
  | nil => intro n f; rfl
  | cons x xs ih =>
    intro n f
    cases n with
    | zero => rfl
    | succ m => simp [modifyAt, ih]

theorem modifyAt_getElem_ne {α : Type} : ∀ (l : List α) (n : Nat) (f : α → α) (m : Nat),
    m ≠ n → (modifyAt l n f)[m]? = l[m]? := by
  intro l
  induction l with
  | nil => intro n f m _; rfl
  | cons x xs ih =>
    intro n f m hm
    cases n with
    | zero =>
      cases m with
      | zero => exact absurd rfl hm
      | succ k => simp [modifyAt]
    | succ n' =>
      cases m with
      | zero => simp [modifyAt]
      | succ k => simpa [modifyAt] using ih n' f k (by omega)

theorem modifyAt_getElem_eq {α : Type} : ∀ (l : List α) (n : Nat) (f : α → α),
    (modifyAt l n f)[n]? = l[n]?.map f := by
  intro l
  induction l with
  | nil => intro n f; rfl
  | cons x xs ih =>
    intro n f
    cases n with
    | zero => simp [modifyAt]
    | succ m => simpa [modifyAt] using ih m f

theorem entriesFrom_mem : ∀ (l : List Product) (n : Nat) {i : Nat} {p : Product},
    (i, p) ∈ entriesFrom n l → n ≤ i ∧ l[i - n]? = some p := by
  intro l
  induction l with
  | nil => intro n i p h; simp [entriesFrom] at h
  | cons x xs ih =>
    intro n i p h
    rw [entriesFrom, List.mem_cons] at h
    rcases h with h | h
    · injection h with h1 h2
      subst h1
      subst h2
      exact ⟨le_refl _, by simp⟩
    · obtain ⟨hle, hget⟩ := ih (n + 1) h
      refine ⟨by omega, ?_⟩
      have : i - n = (i - (n + 1)) + 1 := by omega
      rw [this, List.getElem?_cons_succ]
      exact hget

theorem entriesFrom_map_fst : ∀ (l : List Product) (n : Nat),
    (entriesFrom n l).map Prod.fst = List.range' n l.length := by
  intro l
  induction l with
  | nil => intro n; rfl
  | cons x xs ih =>
    intro n
    rw [entriesFrom, List.map_cons, List.length_cons, List.range'_succ, ih]

theorem bucketEntries_mem {products : List Product} {key : String} {i : Nat} {p : Product}
    (h : (i, p) ∈ bucketEntries products key) :
    products[i]? = some p ∧ p.category = "stickers" ∧ productSizeKey p = key
      ∧ i < products.length := by
  rw [bucketEntries, List.mem_filter] at h
  obtain ⟨hmem, hpred⟩ := h
  obtain ⟨-, hget⟩ := entriesFrom_mem products 0 hmem
  rw [Nat.sub_zero] at hget
  have hlt : i < products.length := by
    by_contra hge
    rw [List.getElem?_eq_none (by omega)] at hget
    exact Option.noConfusion hget
  simp only [Bool.and_eq_true, beq_iff_eq] at hpred
  exact ⟨hget, hpred.1, hpred.2, hlt⟩

theorem bucketIdxs_nodup (products : List Product) (key : String) :
    (bucketIdxs products key).Nodup := by
  have hsub : (bucketIdxs products key).Sublist ((entriesFrom 0 products).map Prod.fst) :=
    List.Sublist.map Prod.fst (List.filter_sublist _)
  rw [entriesFrom_map_fst] at hsub
  exact hsub.nodup (List.nodup_range' _ _)

theorem mem_bucketIdxs {products : List Product} {key : String} {i : Nat}
    (h : i ∈ bucketIdxs products key) :
    ∃ p, products[i]? = some p ∧ p.category = "stickers" ∧ productSizeKey p = key
      ∧ i < products.length := by
  rw [bucketIdxs, List.mem_map] at h
  obtain ⟨⟨i', p⟩, hmem, hi⟩ := h
  cases hi
  exact ⟨p, bucketEntries_mem hmem⟩

theorem bucketIdxs_disjoint {products : List Product} {k k' : String} {i : Nat}
    (h : i ∈ bucketIdxs products k) (h' : i ∈ bucketIdxs products k') : k = k' := by
  obtain ⟨p, hp, -, hk, -⟩ := mem_bucketIdxs h
  obtain ⟨p', hp', -, hk', -⟩ := mem_bucketIdxs h'
  rw [hp] at hp'
  cases hp'
  rw [← hk, ← hk']

theorem mkAssigns_qty : ∀ (es : List (Nat × Product)) (qs : List Nat) (u : Option Rat),
    es.length = qs.length → (mkAssigns es qs u).map Assign.qty = qs := by
  intro es
  induction es with
  | nil =>
    intro qs u h
    cases qs with
    | nil => rfl
    | cons q qs' => simp at h
  | cons e es' ih =>
    intro qs u h
    cases qs with
    | nil => simp at h
    | cons q qs' =>
      obtain ⟨i, p⟩ := e
      simp only [mkAssigns, List.map_cons]
      rw [ih qs' u (by simpa using h)]

theorem mkAssigns_idx : ∀ (es : List (Nat × Product)) (qs : List Nat) (u : Option Rat),
    es.length = qs.length → (mkAssigns es qs u).map Assign.idx = es.map Prod.fst := by
  intro es
  induction es with
  | nil =>
    intro qs u h
    cases qs with
    | nil => rfl
    | cons q qs' => simp at h
  | cons e es' ih =>
    intro qs u h
    cases qs with
    | nil => simp at h
    | cons q qs' =>
      obtain ⟨i, p⟩ := e
      simp only [mkAssigns, List.map_cons]
      rw [ih qs' u (by simpa using h)]

theorem mem_mkAssigns : ∀ {es : List (Nat × Product)} {qs : List Nat} {u : Option Rat}
    {a : Assign}, a ∈ mkAssigns es qs u →
    a.idx ∈ es.map Prod.fst ∧ a.qty ∈ qs ∧ ∃ p, (a.idx, p) ∈ es ∧ a.area = itemAssignedArea p u := by
  intro es
  induction es with
  | nil => intro qs u a h; cases qs <;> simp [mkAssigns] at h
  | cons e es' ih =>
    intro qs u a h
    cases qs with
    | nil => simp [mkAssigns] at h
    | cons q qs' =>
      obtain ⟨i, p⟩ := e
      rw [mkAssigns, List.mem_cons] at h
      rcases h with h | h
      · subst h
        exact ⟨by simp, by simp, p, by simp, rfl⟩
      · obtain ⟨h1, h2, p', hp', h3⟩ := ih h
        exact ⟨by simp [h1], by simp [h2], p', by simp [hp'], h3⟩

theorem assignQtys_one (q : Nat) : assignQtys q 1 = [q] := by
  have h1 : q / 1 = q := Nat.div_one q
  have h2 : q - q / 1 * 1 = 0 := by omega
  unfold assignQtys
  rw [if_neg (by omega), h2, h1]
  unfold assignLoop
  simp [assignLoop]

/-! Description of the main loop in terms of `runBlocksFrom` and
`runSynthsFrom`. -/

theorem processKeys_eq (orig : List Product) (nid : Int) (now : String) :
    ∀ (counts : List (String × Nat)) (ps : List Product) (ta : Rat) (tc : Nat)
      (bs : List KeyBlock),
      processKeys orig nid now ⟨ps, ta, tc, bs⟩ counts
        = ⟨ps ++ runSynthsFrom orig nid now counts,
           ta + countsAreaSum orig counts,
           tc + countsQtySum counts,
           bs ++ runBlocksFrom orig nid now ps.length counts⟩ := by
  intro counts
  induction counts with
  | nil =>
    intro ps ta tc bs
    simp [processKeys, runSynthsFrom, countsAreaSum, countsQtySum, runBlocksFrom]
  | cons kv rest ih =>
    intro ps ta tc bs
    show processKeys orig nid now (processKey orig nid now ⟨ps, ta, tc, bs⟩ kv) rest = _
    rw [processKey]
    by_cases hc : (bucketEntries orig kv.1).isEmpty ∧ 0 < kv.2
    · rw [if_pos hc]
      rw [ih]
      rw [runSynthsFrom, if_pos hc, runBlocksFrom, if_pos hc]
      simp only [countsAreaSum, countsQtySum, List.map_cons, List.sum_cons, keyAreaContrib,
        List.length_append, List.length_cons, List.length_nil]
      rw [RunAcc.mk.injEq]
      refine ⟨?_, by ring, by omega, ?_⟩
      · rw [List.append_assoc]
        rfl
      · rw [List.append_assoc]
        rfl
    · rw [if_neg hc]
      rw [ih]
      rw [runSynthsFrom, if_neg hc, runBlocksFrom, if_neg hc]
      simp only [countsAreaSum, countsQtySum, List.map_cons, List.sum_cons, keyAreaContrib]
      rw [RunAcc.mk.injEq]
      refine ⟨rfl, by ring, by omega, ?_⟩
      rw [List.append_assoc]
      rfl

theorem plateRun_eq (orig : List Product) (nid : Int) (now : String)
    (counts : List (String × Nat)) :
    plateRun orig nid now counts
      = ⟨orig ++ runSynthsFrom orig nid now counts,
         countsAreaSum orig counts,
         countsQtySum counts,
         runBlocksFrom orig nid now orig.length counts⟩ := by
  rw [plateRun, processKeys_eq]
  simp

theorem runBlocksFrom_proj (orig : List Product) (nid : Int) (now : String) :
    ∀ (counts : List (String × Nat)) (len : Nat),
      (runBlocksFrom orig nid now len counts).map (fun b => (b.sizeKey, b.qty)) = counts := by
  intro counts
  induction counts with
  | nil => intro len; rfl
  | cons kv rest ih =>
    intro len
    rw [runBlocksFrom]
    by_cases hc : (bucketEntries orig kv.1).isEmpty ∧ 0 < kv.2
    · rw [if_pos hc, List.map_cons, ih]
    · rw [if_neg hc, List.map_cons, ih]

theorem runBlocksFrom_shape (orig : List Product) (nid : Int) (now : String) :
    ∀ (counts : List (String × Nat)) (len : Nat) (b : KeyBlock),
      b ∈ runBlocksFrom orig nid now len counts →
      b.unitArea = resolveUnitArea b.sizeKey (stickersBySize orig b.sizeKey) ∧
      ((bucketEntries orig b.sizeKey).isEmpty ∧ 0 < b.qty →
        ∃ i, len ≤ i ∧
          b.assigns = [⟨i, b.qty,
            itemAssignedArea (synthProduct nid b.sizeKey now) b.unitArea⟩]) ∧
      (¬((bucketEntries orig b.sizeKey).isEmpty ∧ 0 < b.qty) →
        b.assigns = mkAssigns (bucketEntries orig b.sizeKey)
          (assignQtys b.qty (bucketEntries orig b.sizeKey).length) b.unitArea) := by
  intro counts
  induction counts with
  | nil => intro len b h; simp [runBlocksFrom] at h
  | cons kv rest ih =>
    intro len b h
    rw [runBlocksFrom] at h
    by_cases hc : (bucketEntries orig kv.1).isEmpty ∧ 0 < kv.2
    · rw [if_pos hc, List.mem_cons] at h
      rcases h with rfl | h
      · refine ⟨rfl, fun _ => ⟨len, le_refl _, ?_⟩, fun hn => absurd hc hn⟩
        rw [assignQtys_one]
        rfl
      · obtain ⟨h1, h2, h3⟩ := ih (len + 1) b h
        exact ⟨h1, fun hcb => by
          obtain ⟨i, hi, hb⟩ := h2 hcb
          exact ⟨i, by omega, hb⟩, h3⟩
    · rw [if_neg hc, List.mem_cons] at h
      rcases h with rfl | h
      · exact ⟨rfl, fun hcb => absurd hcb hc, fun _ => rfl⟩
      · exact ih len b h

theorem runBlocksFrom_block_sum (orig : List Product) (nid : Int) (now : String)
    {counts : List (String × Nat)} {len : Nat} {b : KeyBlock}
    (h : b ∈ runBlocksFrom orig nid now len counts) :
    (b.assigns.map Assign.qty).sum = b.qty := by
  obtain ⟨-, hsynth, hbucket⟩ := runBlocksFrom_shape orig nid now counts len b h
  by_cases hc : (bucketEntries orig b.sizeKey).isEmpty ∧ 0 < b.qty
  · obtain ⟨i, -, hb⟩ := hsynth hc
    rw [hb]
    simp
  · rw [hbucket hc]
    rw [mkAssigns_qty _ _ _ (assignQtys_length _ _).symm]
    rcases Nat.eq_zero_or_pos (bucketEntries orig b.sizeKey).length with hn | hn
    · have hempty : (bucketEntries orig b.sizeKey).isEmpty := by
        rw [List.isEmpty_iff, ← List.length_eq_zero]
        exact hn
      have hq : b.qty = 0 := by
        by_contra hq
        exact hc ⟨hempty, Nat.pos_of_ne_zero hq⟩
      rw [hn, hq]
      rfl
    · exact assignQtys_sum _ hn

theorem runBlocksFrom_zero_qty (orig : List Product) (nid : Int) (now : String)
    {counts : List (String × Nat)} {len : Nat} {b : KeyBlock}
    (h : b ∈ runBlocksFrom orig nid now len counts) (hq : b.qty = 0) :
    ∀ a ∈ b.assigns, a.qty = 0 := by
  intro a ha
  obtain ⟨-, -, hbucket⟩ := runBlocksFrom_shape orig nid now counts len b h
  have hshape := hbucket (by rw [hq]; simp)
  rw [hshape] at ha
  obtain ⟨-, hmem, -⟩ := mem_mkAssigns ha
  rw [hq] at hmem
  exact mem_assignQtys_zero hmem

theorem runBlocksFrom_idx_class (orig : List Product) (nid : Int) (now : String) :
    ∀ (counts : List (String × Nat)) (len : Nat) (b : KeyBlock) (a : Assign),
      b ∈ runBlocksFrom orig nid now len counts → a ∈ b.assigns →
      a.idx ∈ bucketIdxs orig b.sizeKey ∨
        (len ≤ a.idx ∧ a.idx < len + (runSynthsFrom orig nid now counts).length) := by
  intro counts
  induction counts with
  | nil => intro len b a hb _; simp [runBlocksFrom] at hb
  | cons kv rest ih =>
    intro len b a hb ha
    rw [runBlocksFrom] at hb
    by_cases hc : (bucketEntries orig kv.1).isEmpty ∧ 0 < kv.2
    · rw [if_pos hc, List.mem_cons] at hb
      have hlen : (runSynthsFrom orig nid now (kv :: rest)).length
          = (runSynthsFrom orig nid now rest).length + 1 := by
        rw [runSynthsFrom, if_pos hc, List.length_cons]
      rcases hb with rfl | hb
      · rw [assignQtys_one] at ha
        have ha' : a = ⟨len, kv.2, itemAssignedArea (synthProduct nid kv.1 now)
            (resolveUnitArea kv.1 (stickersBySize orig kv.1))⟩ := by
          simpa [mkAssigns] using ha
        subst ha'
        right
        refine ⟨le_refl _, ?_⟩
        show len < len + (runSynthsFrom orig nid now (kv :: rest)).length
        rw [hlen]
        omega
      · rcases ih (len + 1) b a hb ha with h | ⟨h1, h2⟩
        · exact Or.inl h
        · exact Or.inr ⟨by omega, by omega⟩
    · rw [if_neg hc, List.mem_cons] at hb
      have hlen : (runSynthsFrom orig nid now (kv :: rest)).length
          = (runSynthsFrom orig nid now rest).length := by
        rw [runSynthsFrom, if_neg hc]
      rcases hb with rfl | hb
      · obtain ⟨hidx, -, -⟩ := mem_mkAssigns ha
        rw [← bucketIdxs] at hidx
        exact Or.inl hidx
      · rcases ih len b a hb ha with h | ⟨h1, h2⟩
        · exact Or.inl h
        · exact Or.inr ⟨h1, by omega⟩

theorem runBlocksFrom_key_mem (orig : List Product) (nid : Int) (now : String)
    {counts : List (String × Nat)} {len : Nat} {b : KeyBlock}
    (h : b ∈ runBlocksFrom orig nid now len counts) :
    (b.sizeKey, b.qty) ∈ counts := by
  have hproj := runBlocksFrom_proj orig nid now counts len
  rw [← hproj]
  exact List.mem_map_of_mem _ h

theorem runBlocksFrom_idx_nodup (orig : List Product) (nid : Int) (now : String) :
    ∀ (counts : List (String × Nat)) (len : Nat), orig.length ≤ len →
      (counts.map Prod.fst).Nodup →
      ((runBlocksFrom orig nid now len counts).map
        (fun b => b.assigns.map Assign.idx)).flatten.Nodup := by
  intro counts
  induction counts with
  | nil => intro len _ _; simp [runBlocksFrom]
  | cons kv rest ih =>
    intro len hlen hnd
    rw [List.map_cons, List.nodup_cons] at hnd
    obtain ⟨hk, hnd'⟩ := hnd
    have hmem_rest : ∀ x, x ∈ ((runBlocksFrom orig nid now (len + 1) rest).map
        (fun b => b.assigns.map Assign.idx)).flatten ∨
        x ∈ ((runBlocksFrom orig nid now len rest).map
        (fun b => b.assigns.map Assign.idx)).flatten →
        ∀ len', (x ∈ ((runBlocksFrom orig nid now len' rest).map
          (fun b => b.assigns.map Assign.idx)).flatten) →
        (∃ b ∈ runBlocksFrom orig nid now len' rest, x ∈ bucketIdxs orig b.sizeKey) ∨ len' ≤ x := by
      intro x _ len' hx
      rw [List.mem_flatten] at hx
      obtain ⟨ys, hys, hxy⟩ := hx
      rw [List.mem_map] at hys
      obtain ⟨b, hb, rfl⟩ := hys
      rw [List.mem_map] at hxy
      obtain ⟨a, ha, rfl⟩ := hxy
      rcases runBlocksFrom_idx_class orig nid now rest len' b a hb ha with h | ⟨h1, -⟩
      · exact Or.inl ⟨b, hb, h⟩
      · exact Or.inr h1
    rw [runBlocksFrom]
    by_cases hc : (bucketEntries orig kv.1).isEmpty ∧ 0 < kv.2
    · rw [if_pos hc, List.map_cons, List.flatten_cons, List.nodup_append]
      rw [assignQtys_one]
      refine ⟨by simp [mkAssigns], ih (len + 1) (by omega) hnd', ?_⟩
      intro x hx hmem
      have hx' : x = len := by simpa [mkAssigns] using hx
      rcases hmem_rest x (Or.inl hmem) (len + 1) hmem with ⟨b, hb, hbi⟩ | hge
      · obtain ⟨p, -, -, -, hlt⟩ := mem_bucketIdxs hbi
        omega
      · omega
    · rw [if_neg hc, List.map_cons, List.flatten_cons, List.nodup_append]
      have hidxs : (mkAssigns (bucketEntries orig kv.1)
          (assignQtys kv.2 (bucketEntries orig kv.1).length)
          (resolveUnitArea kv.1 (stickersBySize orig kv.1))).map Assign.idx
          = bucketIdxs orig kv.1 := by
        rw [mkAssigns_idx _ _ _ (assignQtys_length _ _).symm]
        rfl
      rw [hidxs]
      refine ⟨bucketIdxs_nodup orig kv.1, ih len hlen hnd', ?_⟩
      intro x hx hmem
      rcases hmem_rest x (Or.inr hmem) len hmem with ⟨b, hb, hbi⟩ | hge
      · have hkeys : kv.1 = b.sizeKey := bucketIdxs_disjoint hx hbi
        apply hk
        have : (b.sizeKey, b.qty) ∈ rest := runBlocksFrom_key_mem orig nid now hb
        rw [hkeys]
        exact List.mem_map_of_mem Prod.fst this
      · obtain ⟨p, -, -, -, hlt⟩ := mem_bucketIdxs hx
        omega

theorem runBlocksFrom_synth_get (orig : List Product) (nid : Int) (now : String) :
    ∀ (counts : List (String × Nat)) (ps : List Product), orig.length ≤ ps.length →
      ∀ b ∈ runBlocksFrom orig nid now ps.length counts, ∀ a ∈ b.assigns,
        ps.length ≤ a.idx →
        (ps ++ runSynthsFrom orig nid now counts)[a.idx]?
          = some (synthProduct nid b.sizeKey now) := by
  intro counts
  induction counts with
  | nil => intro ps _ b hb; simp [runBlocksFrom] at hb
  | cons kv rest ih =>
    intro ps hlen b hb a ha hidx
    rw [runBlocksFrom] at hb
    by_cases hc : (bucketEntries orig kv.1).isEmpty ∧ 0 < kv.2
    · rw [if_pos hc, List.mem_cons] at hb
      rw [runSynthsFrom, if_pos hc]
      rcases hb with rfl | hb
      · rw [assignQtys_one] at ha
        have ha' : a = ⟨ps.length, kv.2, itemAssignedArea (synthProduct nid kv.1 now)
            (resolveUnitArea kv.1 (stickersBySize orig kv.1))⟩ := by
          simpa [mkAssigns] using ha
        subst ha'
        show (ps ++ synthProduct nid kv.1 now :: runSynthsFrom orig nid now rest)[ps.length]?
          = _
        rw [List.getElem?_append_right (le_refl ps.length)]
        simp
      · have hge : ps.length + 1 ≤ a.idx := by
          rcases runBlocksFrom_idx_class orig nid now rest (ps.length + 1) b a hb ha
            with h | ⟨h1, -⟩
          · obtain ⟨p, -, -, -, hlt⟩ := mem_bucketIdxs h
            omega
          · exact h1
        have hlen' : (ps ++ [synthProduct nid kv.1 now]).length = ps.length + 1 := by simp
        have key := ih (ps ++ [synthProduct nid kv.1 now]) (by rw [hlen']; omega) b
          (by rw [hlen']; exact hb) a ha (by rw [hlen']; exact hge)
        rw [List.append_assoc] at key
        exact key
    · rw [if_neg hc, List.mem_cons] at hb
      rw [runSynthsFrom, if_neg hc]
      rcases hb with rfl | hb
      · obtain ⟨hidx', -, -⟩ := mem_mkAssigns ha
        rw [← bucketIdxs] at hidx'
        obtain ⟨p, -, -, -, hlt⟩ := mem_bucketIdxs hidx'
        omega
      · exact ih ps hlen b hb a ha hidx

theorem runBlocksFrom_contrib_sum (orig : List Product) (nid : Int) (now : String) :
    ∀ (counts : List (String × Nat)) (len : Nat),
      ((runBlocksFrom orig nid now len counts).map
        (fun b => if truthyQ b.unitArea then b.unitArea.getD 0 * (b.qty : Rat) else 0)).sum
      = countsAreaSum orig counts := by
  intro counts
  induction counts with
  | nil => intro len; rfl
  | cons kv rest ih =>
    intro len
    rw [runBlocksFrom, countsAreaSum, List.map_cons, List.sum_cons]
    by_cases hc : (bucketEntries orig kv.1).isEmpty ∧ 0 < kv.2
    · rw [if_pos hc, List.map_cons, List.sum_cons, ih]
      rfl
    · rw [if_neg hc, List.map_cons, List.sum_cons, ih]
      rfl

theorem runBlocksFrom_qty_sum (orig : List Product) (nid : Int) (now : String)
    (counts : List (String × Nat)) (len : Nat) :
    ((runBlocksFrom orig nid now len counts).map KeyBlock.qty).sum = countsQtySum counts := by
  have h := congrArg (List.map Prod.snd) (runBlocksFrom_proj orig nid now counts len)
  rw [List.map_map] at h
  rw [countsQtySum, ← h]
  rfl

/-! Lemmas about the cost-distribution fold. -/

theorem foldl_modifyAt_not_mem {F : Assign → Product → Product} :
    ∀ (as : List Assign) (ps : List Product) (j : Nat), (∀ a ∈ as, a.idx ≠ j) →
      (as.foldl (fun l x => modifyAt l x.idx (F x)) ps)[j]? = ps[j]? := by
  intro as
  induction as with
  | nil => intro ps j _; rfl
  | cons x rest ih =>
    intro ps j h
    rw [List.foldl_cons, ih _ _ (fun y hy => h y (by simp [hy])),
      modifyAt_getElem_ne _ _ _ _ (Ne.symm (h x (by simp)))]

theorem foldl_modifyAt_unique {F : Assign → Product → Product} :
    ∀ (as : List Assign) (ps : List Product) (a : Assign), a ∈ as →
      (as.map Assign.idx).Nodup →
      (as.foldl (fun l x => modifyAt l x.idx (F x)) ps)[a.idx]? = ps[a.idx]?.map (F a) := by
  intro as
  induction as with
  | nil => intro ps a h; simp at h
  | cons x rest ih =>
    intro ps a ha hnd
    rw [List.map_cons, List.nodup_cons] at hnd
    obtain ⟨hx, hnd'⟩ := hnd
    rw [List.mem_cons] at ha
    rw [List.foldl_cons]
    rcases ha with rfl | ha
    · rw [foldl_modifyAt_not_mem rest _ a.idx
        (fun y hy he => hx (he ▸ List.mem_map_of_mem Assign.idx hy))]
      exact modifyAt_getElem_eq ps a.idx (F a)
    · rw [ih _ a ha hnd', modifyAt_getElem_ne ps x.idx _ a.idx
        (fun he => hx (he ▸ List.mem_map_of_mem Assign.idx ha))]

theorem mem_runAssigns {acc : RunAcc} {b : KeyBlock} {a : Assign}
    (hb : b ∈ acc.blocks) (ha : a ∈ b.assigns) : a ∈ runAssigns acc := by
  rw [runAssigns, List.mem_flatten]
  exact ⟨b.assigns, List.mem_map_of_mem _ hb, ha⟩

theorem runAssigns_idx_nodup {acc : RunAcc}
    (h : ((acc.blocks.map (fun b => b.assigns.map Assign.idx))).flatten.Nodup) :
    ((runAssigns acc).map Assign.idx).Nodup := by
  rw [runAssigns, List.map_flatten, List.map_map]
  exact h

theorem printPlate_success {db : DB} (now : String) {plateId : Int} {plate : PrintingPlate}
    (hfind : db.printing_plates.find? (fun p => p.id == plateId) = some plate)
    (hpend : plate.is_printed = false) :
    printPlate db now plateId
      = ({ db with
            products := applyCostPhase plate.cost (printPlateRun db plate now)
            printing_plates := modifyFirst (fun p => p.id == plateId)
              (fun p => { p with is_printed := true, date_printed := some now })
              db.printing_plates }, true) := by
  unfold printPlate
  rw [hfind]
  simp [hpend]

theorem printPlateRun_prods (db : DB) (plate : PrintingPlate) (now : String) :
    (printPlateRun db plate now).prods
      = db.products ++ runSynthsFrom db.products (nextIdInt (db.products.map Product.id))
          now (countsBySize plate) := by
  rw [printPlateRun, plateRun_eq]

theorem printPlateRun_blocks (db : DB) (plate : PrintingPlate) (now : String) :
    (printPlateRun db plate now).blocks
      = runBlocksFrom db.products (nextIdInt (db.products.map Product.id)) now
          db.products.length (countsBySize plate) := by
  rw [printPlateRun, plateRun_eq]

theorem printPlateRun_totalArea (db : DB) (plate : PrintingPlate) (now : String) :
    (printPlateRun db plate now).totalArea
      = countsAreaSum db.products (countsBySize plate) := by
  rw [printPlateRun, plateRun_eq]

theorem printPlateRun_totalCount (db : DB) (plate : PrintingPlate) (now : String) :
    (printPlateRun db plate now).totalCount = countsQtySum (countsBySize plate) := by
  rw [printPlateRun, plateRun_eq]

theorem printPlateRun_idx_lt {db : DB} {plate : PrintingPlate} {now : String}
    {b : KeyBlock} {a : Assign}
    (hb : b ∈ (printPlateRun db plate now).blocks) (ha : a ∈ b.assigns) :
    a.idx < (printPlateRun db plate now).prods.length := by
  rw [printPlateRun_blocks] at hb
  rw [printPlateRun_prods, List.length_append]
  rcases runBlocksFrom_idx_class _ _ _ _ _ b a hb ha with h | ⟨-, h2⟩
  · obtain ⟨p, -, -, -, hl⟩ := mem_bucketIdxs h
    omega
  · omega

theorem printPlateRun_nodup {db : DB} {plate : PrintingPlate} {now : String}
    (hnodup : ((countsBySize plate).map Prod.fst).Nodup) :
    ((runAssigns (printPlateRun db plate now)).map Assign.idx).Nodup := by
  apply runAssigns_idx_nodup
  rw [printPlateRun_blocks]
  exact runBlocksFrom_idx_nodup _ _ _ _ _ (le_refl _) hnodup

/-- The final catalog at an assigned position: the pre-cost-phase product
updated once by the ledger, provided the plate map's keys are unique. -/
theorem applyCostPhase_at_assign {db : DB} {plate : PrintingPlate} {now : String}
    {b : KeyBlock} {a : Assign}
    (hnodup : ((countsBySize plate).map Prod.fst).Nodup)
    (hb : b ∈ (printPlateRun db plate now).blocks) (ha : a ∈ b.assigns) :
    (applyCostPhase plate.cost (printPlateRun db plate now))[a.idx]?
      = ((printPlateRun db plate now).prods[a.idx]?).map
          (ledgerUpdate (a.qty : Rat)
            (assignUnitCost plate.cost (printPlateRun db plate now).totalArea
              (printPlateRun db plate now).totalCount a)) := by
  have hmem : a ∈ runAssigns (printPlateRun db plate now) := mem_runAssigns hb ha
  exact foldl_modifyAt_unique (runAssigns (printPlateRun db plate now))
    (printPlateRun db plate now).prods a hmem (printPlateRun_nodup hnodup)

/-- Claim C1: after printPlate succeeds on a pending plate, for each size
key in the plate's map the quantities assigned to the products bound to
that key (including a newly synthesized product, if any) sum to exactly
the key's requested quantity, and each such product's stock increases by
exactly its assigned quantity. -/
theorem claim1_plate_conservation (db : DB) (now : String) (plateId : Int)
    (plate : PrintingPlate)
    (hfind : db.printing_plates.find? (fun p => p.id == plateId) = some plate)
    (hpend : plate.is_printed = false)
    (hnodup : ((countsBySize plate).map Prod.fst).Nodup) :
    (printPlate db now plateId).2 = true ∧
    ∀ s q, (s, q) ∈ countsBySize plate →
      ∃ b ∈ (printPlateRun db plate now).blocks,
        b.sizeKey = s ∧ b.qty = q ∧
        (b.assigns.map Assign.qty).sum = q ∧
        ∀ a ∈ b.assigns, ∃ p,
          (printPlateRun db plate now).prods[a.idx]? = some p ∧
          ((printPlate db now plateId).1.products[a.idx]?).map Product.stock
            = some (p.stock + (a.qty : Rat)) := by
  have hpp := printPlate_success now hfind hpend
  refine ⟨by rw [hpp], ?_⟩
  intro s q hsq
  have hproj := runBlocksFrom_proj db.products (nextIdInt (db.products.map Product.id)) now
    (countsBySize plate) db.products.length
  rw [← hproj, List.mem_map] at hsq
  obtain ⟨b, hb, hbeq⟩ := hsq
  have hbmem : b ∈ (printPlateRun db plate now).blocks := by
    rw [printPlateRun_blocks]
    exact hb
  have hbs : b.sizeKey = s := congrArg Prod.fst hbeq
  have hbq : b.qty = q := congrArg Prod.snd hbeq
  refine ⟨b, hbmem, hbs, hbq, by rw [← hbq]; exact runBlocksFrom_block_sum _ _ _ hb, ?_⟩
  intro a ha
  have hlt : a.idx < (printPlateRun db plate now).prods.length := printPlateRun_idx_lt hbmem ha
  refine ⟨(printPlateRun db plate now).prods[a.idx], List.getElem?_eq_getElem hlt, ?_⟩
  rw [hpp]
  show ((applyCostPhase plate.cost (printPlateRun db plate now))[a.idx]?).map Product.stock
    = _
  rw [applyCostPhase_at_assign hnodup hbmem ha, List.getElem?_eq_getElem hlt]
  rfl

theorem claim1_witness :
    w1Db.printing_plates.find? (fun p => p.id == 1) = some w1Plate ∧
    w1Plate.is_printed = false ∧
    ((printPlate w1Db "t" 1).2 = true ∧
      ∀ s q, (s, q) ∈ countsBySize w1Plate →
        ∃ b ∈ (printPlateRun w1Db w1Plate "t").blocks,
          b.sizeKey = s ∧ b.qty = q ∧
          (b.assigns.map Assign.qty).sum = q ∧
          ∀ a ∈ b.assigns, ∃ p,
            (printPlateRun w1Db w1Plate "t").prods[a.idx]? = some p ∧
            ((printPlate w1Db "t" 1).1.products[a.idx]?).map Product.stock
              = some (p.stock + (a.qty : Rat))) :=
  ⟨by decide, by decide,
    claim1_plate_conservation w1Db "t" 1 w1Plate (by decide) (by decide) (by decide)⟩

/-- Claim C10: printPlate leaves every product whose category is not
'stickers' completely unchanged: the same record remains at the same
catalog position, whatever the plate and its state. -/
theorem claim10_non_sticker_frame (db : DB) (now : String) (plateId : Int)
    (j : Nat) (p : Product)
    (hj : db.products[j]? = some p) (hcat : p.category ≠ "stickers") :
    (printPlate db now plateId).1.products[j]? = some p := by
  cases hfind : db.printing_plates.find? (fun pl => pl.id == plateId) with
  | none =>
    unfold printPlate
    rw [hfind]
    exact hj
  | some plate =>
    cases hpr : plate.is_printed with
    | true =>
      unfold printPlate
      rw [hfind]
      simp only [hpr, if_true]
      exact hj
    | false =>
      have hpp := printPlate_success now hfind hpr
      rw [hpp]
      have hjlt : j < db.products.length := by
        by_contra hge
        rw [List.getElem?_eq_none (by omega)] at hj
        exact Option.noConfusion hj
      show ((runAssigns (printPlateRun db plate now)).foldl
          (fun l x => modifyAt l x.idx (ledgerUpdate (x.qty : Rat)
            (assignUnitCost plate.cost (printPlateRun db plate now).totalArea
              (printPlateRun db plate now).totalCount x)))
          (printPlateRun db plate now).prods)[j]? = some p
      rw [foldl_modifyAt_not_mem]
      · rw [printPlateRun_prods, List.getElem?_append_left hjlt]
        exact hj
      · intro a hamem heq
        obtain ⟨b, hb, ha⟩ : ∃ b ∈ (printPlateRun db plate now).blocks, a ∈ b.assigns := by
          rw [runAssigns, List.mem_flatten] at hamem
          obtain ⟨ys, hys, hxy⟩ := hamem
          rw [List.mem_map] at hys
          obtain ⟨b, hb, rfl⟩ := hys
          exact ⟨b, hb, hxy⟩
        rw [printPlateRun_blocks] at hb
        rcases runBlocksFrom_idx_class _ _ _ _ _ b a hb ha with h | ⟨h1, -⟩
        · obtain ⟨p', hp', hcat', -, -⟩ := mem_bucketIdxs h
          rw [heq] at hp'
          rw [hp'] at hj
          have hpe : p' = p := (Option.some.injEq _ _).mp hj
          exact hcat (hpe ▸ hcat')
        · omega

theorem claim10_witness :
    w10Db.products[0]? = some w10P ∧ w10P.category ≠ "stickers" ∧
    (printPlate w10Db "t" 1).1.products[0]? = some w10P :=
  ⟨by decide, by decide,
    claim10_non_sticker_frame w10Db "t" 1 0 w10P (by decide) (by decide)⟩

/-- Claim C9: a size key of the plate with positive quantity and no bound
product gets exactly one synthesized product: name "Sticker <key>",
category stickers, price 0, stock 0, cost 0, size the key, with
width/height/area populated from the parse exactly when the key matches
`<number>x<number>` and unset otherwise; it becomes the sole binding for
the key and joins the printed catalog. -/
theorem claim9_synthesis (db : DB) (now : String) (plateId : Int)
    (plate : PrintingPlate)
    (hfind : db.printing_plates.find? (fun p => p.id == plateId) = some plate)
    (hpend : plate.is_printed = false)
    (hnodup : ((countsBySize plate).map Prod.fst).Nodup)
    (s : String) (q : Nat) (hsq : (s, q) ∈ countsBySize plate) (hq : 0 < q)
    (hempty : stickersBySize db.products s = []) :
    ∃ b ∈ (printPlateRun db plate now).blocks, b.sizeKey = s ∧ b.qty = q ∧
      ∃ i, db.products.length ≤ i ∧
        b.assigns = [⟨i, q, itemAssignedArea
          (synthProduct (nextIdInt (db.products.map Product.id)) s now) b.unitArea⟩] ∧
        (printPlateRun db plate now).prods[i]?
          = some (synthProduct (nextIdInt (db.products.map Product.id)) s now) ∧
        (synthProduct (nextIdInt (db.products.map Product.id)) s now).name
          = "Sticker " ++ s ∧
        (synthProduct (nextIdInt (db.products.map Product.id)) s now).category = "stickers" ∧
        (synthProduct (nextIdInt (db.products.map Product.id)) s now).price = 0 ∧
        (synthProduct (nextIdInt (db.products.map Product.id)) s now).stock = 0 ∧
        (synthProduct (nextIdInt (db.products.map Product.id)) s now).cost = 0 ∧
        (synthProduct (nextIdInt (db.products.map Product.id)) s now).size = some s ∧
        (synthProduct (nextIdInt (db.products.map Product.id)) s now).width_mm
          = (parseDims s).map Prod.fst ∧
        (synthProduct (nextIdInt (db.products.map Product.id)) s now).height_mm
          = (parseDims s).map Prod.snd ∧
        (synthProduct (nextIdInt (db.products.map Product.id)) s now).area_mm2
          = (parseDims s).map (fun wh => wh.1 * wh.2) ∧
        ((printPlate db now plateId).1.products[i]?).map
            (fun pr => (pr.name, pr.category, pr.size))
          = some ("Sticker " ++ s, "stickers", some s) := by
  have hbe : bucketEntries db.products s = [] := by
    rw [stickersBySize] at hempty
    exact List.map_eq_nil_iff.mp hempty
  have hproj := runBlocksFrom_proj db.products (nextIdInt (db.products.map Product.id)) now
    (countsBySize plate) db.products.length
  rw [← hproj, List.mem_map] at hsq
  obtain ⟨b, hb, hbeq⟩ := hsq
  have hbmem : b ∈ (printPlateRun db plate now).blocks := by
    rw [printPlateRun_blocks]
    exact hb
  have hbs : b.sizeKey = s := congrArg Prod.fst hbeq
  have hbq : b.qty = q := congrArg Prod.snd hbeq
  obtain ⟨-, hsynth, -⟩ := runBlocksFrom_shape _ _ _ _ _ b hb
  obtain ⟨i, hge, hassigns⟩ := hsynth (by rw [hbs, hbe, hbq]; exact ⟨rfl, hq⟩)
  rw [hbs, hbq] at hassigns
  have hamem : (⟨i, q, itemAssignedArea
      (synthProduct (nextIdInt (db.products.map Product.id)) s now) b.unitArea⟩ : Assign)
      ∈ b.assigns := by
    rw [hassigns]
    exact List.mem_cons_self _ _
  have hget : (printPlateRun db plate now).prods[i]?
      = some (synthProduct (nextIdInt (db.products.map Product.id)) s now) := by
    rw [printPlateRun_prods]
    have := runBlocksFrom_synth_get db.products (nextIdInt (db.products.map Product.id)) now
      (countsBySize plate) db.products (le_refl _) b hb _ hamem hge
    rw [hbs] at this
    exact this
  refine ⟨b, hbmem, hbs, hbq, i, hge, hassigns, hget, rfl, rfl, rfl, rfl, rfl, rfl, rfl, rfl,
    rfl, ?_⟩
  have hpp := printPlate_success now hfind hpend
  rw [hpp]
  show ((applyCostPhase plate.cost (printPlateRun db plate now))[i]?).map
      (fun pr => (pr.name, pr.category, pr.size)) = _
  have := applyCostPhase_at_assign hnodup hbmem hamem
  rw [this, hget]
  rfl

theorem claim9_witness :
    (w9Plate.stickers_quantities = some [("30x40", 7)] ∧ stickersBySize w9Db.products "30x40" = []) ∧
    (∃ b ∈ (printPlateRun w9Db w9Plate "t").blocks, b.sizeKey = "30x40" ∧ b.qty = 7 ∧
      ∃ i, w9Db.products.length ≤ i ∧
        b.assigns = [⟨i, 7, itemAssignedArea
          (synthProduct (nextIdInt (w9Db.products.map Product.id)) "30x40" "t") b.unitArea⟩] ∧
        (printPlateRun w9Db w9Plate "t").prods[i]?
          = some (synthProduct (nextIdInt (w9Db.products.map Product.id)) "30x40" "t") ∧
        (synthProduct (nextIdInt (w9Db.products.map Product.id)) "30x40" "t").name
          = "Sticker " ++ "30x40" ∧
        (synthProduct (nextIdInt (w9Db.products.map Product.id)) "30x40" "t").category
          = "stickers" ∧
        (synthProduct (nextIdInt (w9Db.products.map Product.id)) "30x40" "t").price = 0 ∧
        (synthProduct (nextIdInt (w9Db.products.map Product.id)) "30x40" "t").stock = 0 ∧
        (synthProduct (nextIdInt (w9Db.products.map Product.id)) "30x40" "t").cost = 0 ∧
        (synthProduct (nextIdInt (w9Db.products.map Product.id)) "30x40" "t").size
          = some "30x40" ∧
        (synthProduct (nextIdInt (w9Db.products.map Product.id)) "30x40" "t").width_mm
          = (parseDims "30x40").map Prod.fst ∧
        (synthProduct (nextIdInt (w9Db.products.map Product.id)) "30x40" "t").height_mm
          = (parseDims "30x40").map Prod.snd ∧
        (synthProduct (nextIdInt (w9Db.products.map Product.id)) "30x40" "t").area_mm2
          = (parseDims "30x40").map (fun wh => wh.1 * wh.2) ∧
        ((printPlate w9Db "t" 1).1.products[i]?).map
            (fun pr => (pr.name, pr.category, pr.size))
          = some ("Sticker " ++ "30x40", "stickers", some "30x40")) :=
  ⟨⟨by decide, by decide⟩,
    claim9_synthesis w9Db "t" 1 w9Plate (by decide) (by decide) (by decide) "30x40" 7
      (by decide) (by decide) (by decide)⟩

/-- Counterexample to claim C8 as stated: a product bound to a zero-quantity
key, with stock 0 and recorded cost 5, is assigned zero units yet has its
cost overwritten to 0 by printPlate (the zero-stock branch of the ledger
replaces the cost even for a zero addition). -/
theorem claim8_zero_qty_counterexample :
    ((printPlateRun ce8Db ce8Plate "t").blocks.map (fun b => b.assigns.map Assign.qty))
      = [[0]] ∧
    ce8Db.products.map Product.cost = [5] ∧
    (printPlate ce8Db "t" 1).2 = true ∧
    (printPlate ce8Db "t" 1).1.products.map Product.cost = [0] ∧
    (printPlate ce8Db "t" 1).1.products.map Product.stock = [0] :=
  ⟨by decide, by decide, by decide, by decide, by decide⟩

/-- Claim C8 as amended: a product assigned zero units by printPlate keeps
its stock unchanged, and keeps its cost unchanged provided its prior stock
is positive; with non-positive prior stock its cost is overwritten with the
assigned unit cost. -/
theorem claim8_zero_qty_amended (db : DB) (now : String) (plateId : Int)
    (plate : PrintingPlate)
    (hfind : db.printing_plates.find? (fun p => p.id == plateId) = some plate)
    (hpend : plate.is_printed = false)
    (hnodup : ((countsBySize plate).map Prod.fst).Nodup)
    (b : KeyBlock) (hb : b ∈ (printPlateRun db plate now).blocks)
    (a : Assign) (ha : a ∈ b.assigns) (hq : a.qty = 0) :
    ∃ p, (printPlateRun db plate now).prods[a.idx]? = some p ∧
      ((printPlate db now plateId).1.products[a.idx]?).map Product.stock = some p.stock ∧
      (0 < p.stock →
        ((printPlate db now plateId).1.products[a.idx]?).map Product.cost = some p.cost) := by
  have hlt := printPlateRun_idx_lt hb ha
  have hpp := printPlate_success now hfind hpend
  refine ⟨(printPlateRun db plate now).prods[a.idx], List.getElem?_eq_getElem hlt, ?_, ?_⟩
  · rw [hpp]
    show ((applyCostPhase plate.cost (printPlateRun db plate now))[a.idx]?).map Product.stock
      = _
    rw [applyCostPhase_at_assign hnodup hb ha, List.getElem?_eq_getElem hlt]
    simp [ledgerUpdate, hq]
  · intro hpos
    rw [hpp]
    show ((applyCostPhase plate.cost (printPlateRun db plate now))[a.idx]?).map Product.cost
      = _
    rw [applyCostPhase_at_assign hnodup hb ha, List.getElem?_eq_getElem hlt]
    simp only [Option.map_some', Option.some.injEq, ledgerUpdate, hq, Nat.cast_zero,
      add_zero, zero_mul, if_pos hpos]
    exact mul_div_cancel_left₀ _ (ne_of_gt hpos)

theorem claim8_witness :
    (⟨0, 0, some 2500⟩ : Assign)
        ∈ (⟨"chico", 0, some 2500, [⟨0, 0, some 2500⟩]⟩ : KeyBlock).assigns ∧
    (⟨"chico", 0, some 2500, [⟨0, 0, some 2500⟩]⟩ : KeyBlock)
        ∈ (printPlateRun w8Db ce8Plate "t").blocks ∧
    ∃ p, (printPlateRun w8Db ce8Plate "t").prods[(0 : Nat)]? = some p ∧
      ((printPlate w8Db "t" 1).1.products[(0 : Nat)]?).map Product.stock = some p.stock ∧
      (0 < p.stock →
        ((printPlate w8Db "t" 1).1.products[(0 : Nat)]?).map Product.cost = some p.cost) :=
  ⟨by decide, by decide,
    claim8_zero_qty_amended w8Db "t" 1 ce8Plate (by decide) (by decide) (by decide)
      ⟨"chico", 0, some 2500, [⟨0, 0, some 2500⟩]⟩ (by decide) ⟨0, 0, some 2500⟩
      (by decide) rfl⟩

/-- The total outlay of the cost phase, regrouped per size-key block. -/
theorem runOutlay_blocks (pc : Rat) (acc : RunAcc) :
    runOutlay pc acc
      = (acc.blocks.map (fun b => (b.assigns.map
          (fun a => assignUnitCost pc acc.totalArea acc.totalCount a * (a.qty : Rat))).sum)).sum := by
  rw [runOutlay, runAssigns, List.map_flatten, List.sum_flatten, List.map_map, List.map_map]
  rfl

/-- Counterexample to claim C2 as stated: first, two products sharing size
key "s" with own areas 100 and 900 — the key's unit area is 100, so in
area mode the outlay is five times the plate cost; second, a plate whose
only key has quantity 0 — count mode distributes nothing although the
plate cost is 18500. -/
theorem claim2_cost_reconciliation_counterexample :
    (0 < (printPlateRun ce2Db ce2Plate "t").totalArea ∧
      runOutlay ce2Plate.cost (printPlateRun ce2Db ce2Plate "t") = 5000 ∧
      ce2Plate.cost = 1000 ∧
      runOutlay ce2Plate.cost (printPlateRun ce2Db ce2Plate "t") ≠ ce2Plate.cost) ∧
    (¬ 0 < (printPlateRun ce2bDb ce2bPlate "t").totalArea ∧
      runOutlay ce2bPlate.cost (printPlateRun ce2bDb ce2bPlate "t") = 0 ∧
      ce2bPlate.cost = 18500 ∧
      runOutlay ce2bPlate.cost (printPlateRun ce2bDb ce2bPlate "t") ≠ ce2bPlate.cost) :=
  ⟨⟨by decide, by decide, by decide, by decide⟩,
    ⟨by decide, by decide, by decide, by decide⟩⟩

/-- Claim C2 as amended: in area mode the outlay (sum of assigned unit cost
times assigned quantity) equals the plate cost exactly — idealizing floats
as exact rationals — provided every size key with positive quantity has a
truthy resolved unit area and every product assigned under it has that same
per-item area; in count mode it equals the plate cost provided the total
requested count is positive. -/
theorem claim2_cost_reconciliation_amended (db : DB) (now : String) (plateId : Int)
    (plate : PrintingPlate)
    (hfind : db.printing_plates.find? (fun p => p.id == plateId) = some plate)
    (hpend : plate.is_printed = false) :
    (0 < (printPlateRun db plate now).totalArea →
      (∀ b ∈ (printPlateRun db plate now).blocks, 0 < b.qty →
        truthyQ b.unitArea = true ∧ ∀ a ∈ b.assigns, a.area = b.unitArea) →
      runOutlay plate.cost (printPlateRun db plate now) = plate.cost) ∧
    (¬ 0 < (printPlateRun db plate now).totalArea →
      0 < (printPlateRun db plate now).totalCount →
      runOutlay plate.cost (printPlateRun db plate now) = plate.cost) := by
  constructor
  · intro hTA hH
    rw [runOutlay_blocks]
    have hblocks : ∀ b ∈ (printPlateRun db plate now).blocks,
        (b.assigns.map
          (fun a => assignUnitCost plate.cost (printPlateRun db plate now).totalArea
            (printPlateRun db plate now).totalCount a * (a.qty : Rat))).sum
        = plate.cost / (printPlateRun db plate now).totalArea *
            (if truthyQ b.unitArea then b.unitArea.getD 0 * (b.qty : Rat) else 0) := by
      intro b hb
      rcases Nat.eq_zero_or_pos b.qty with hq | hq
      · have hz : ∀ a ∈ b.assigns, a.qty = 0 := by
          rw [printPlateRun_blocks] at hb
          exact runBlocksFrom_zero_qty _ _ _ hb hq
        have hmap : (b.assigns.map
            (fun a => assignUnitCost plate.cost (printPlateRun db plate now).totalArea
              (printPlateRun db plate now).totalCount a * (a.qty : Rat)))
            = b.assigns.map (fun _ => (0 : Rat)) := by
          refine List.map_congr_left (fun a ha => ?_)
          rw [hz a ha]
          simp
        rw [hmap, hq]
        simp
      · obtain ⟨htr, hare⟩ := hH b hb hq
        have hmap : (b.assigns.map
            (fun a => assignUnitCost plate.cost (printPlateRun db plate now).totalArea
              (printPlateRun db plate now).totalCount a * (a.qty : Rat)))
            = b.assigns.map
              (fun a => (plate.cost / (printPlateRun db plate now).totalArea
                * b.unitArea.getD 0) * (a.qty : Rat)) := by
          refine List.map_congr_left (fun a ha => ?_)
          rw [assignUnitCost, if_pos hTA, hare a ha]
          simp [htr]
        rw [hmap, List.sum_map_mul_left, if_pos htr]
        have hcast : (b.assigns.map (fun a => (a.qty : Rat))).sum = ((b.qty : Nat) : Rat) := by
          have hsum : (b.assigns.map Assign.qty).sum = b.qty := by
            rw [printPlateRun_blocks] at hb
            exact runBlocksFrom_block_sum _ _ _ hb
          rw [← hsum, Nat.cast_list_sum, List.map_map]
          rfl
        rw [hcast]
        ring
    rw [List.map_congr_left hblocks, List.sum_map_mul_left]
    rw [printPlateRun_blocks, runBlocksFrom_contrib_sum, ← printPlateRun_totalArea db plate now]
    exact div_mul_cancel₀ plate.cost (ne_of_gt hTA)
  · intro hTA hTC
    rw [runOutlay_blocks]
    have hcps : ∀ a : Assign,
        assignUnitCost plate.cost (printPlateRun db plate now).totalArea
          (printPlateRun db plate now).totalCount a
        = plate.cost / ((printPlateRun db plate now).totalCount : Rat) := by
      intro a
      rw [assignUnitCost, if_neg hTA, if_pos hTC]
    have hblocks : ∀ b ∈ (printPlateRun db plate now).blocks,
        (b.assigns.map
          (fun a => assignUnitCost plate.cost (printPlateRun db plate now).totalArea
            (printPlateRun db plate now).totalCount a * (a.qty : Rat))).sum
        = plate.cost / ((printPlateRun db plate now).totalCount : Rat) * ((b.qty : Nat) : Rat) := by
      intro b hb
      have hmap : (b.assigns.map
          (fun a => assignUnitCost plate.cost (printPlateRun db plate now).totalArea
            (printPlateRun db plate now).totalCount a * (a.qty : Rat)))
          = b.assigns.map
            (fun a => plate.cost / ((printPlateRun db plate now).totalCount : Rat)
              * (a.qty : Rat)) := by
        refine List.map_congr_left (fun a _ => ?_)
        rw [hcps a]
      rw [hmap, List.sum_map_mul_left]
      have hsum : (b.assigns.map Assign.qty).sum = b.qty := by
        rw [printPlateRun_blocks] at hb
        exact runBlocksFrom_block_sum _ _ _ hb
      rw [← hsum, Nat.cast_list_sum, List.map_map]
      rfl
    rw [List.map_congr_left hblocks, List.sum_map_mul_left]
    have hqs : ((printPlateRun db plate now).blocks.map (fun b => ((b.qty : Nat) : Rat))).sum
        = (((printPlateRun db plate now).totalCount : Nat) : Rat) := by
      rw [printPlateRun_blocks, printPlateRun_totalCount]
      rw [← runBlocksFrom_qty_sum db.products (nextIdInt (db.products.map Product.id)) now
        (countsBySize plate) db.products.length]
      rw [Nat.cast_list_sum, List.map_map]
      rfl
    rw [hqs]
    have hne : (((printPlateRun db plate now).totalCount : Nat) : Rat) ≠ 0 := by
      exact_mod_cast Nat.pos_iff_ne_zero.mp hTC
    exact div_mul_cancel₀ plate.cost hne

theorem claim2_witness :
    0 < (printPlateRun wDb wPlate "t").totalArea ∧
    wPlate.cost = 18500 ∧
    runOutlay wPlate.cost (printPlateRun wDb wPlate "t") = wPlate.cost := by
  have h := claim2_cost_reconciliation_amended wDb "t" 1 wPlate (by decide) (by decide)
  exact ⟨by decide, by decide, h.1 (by decide) (by decide)⟩

end StickerShop
